import Mathlib

set_option maxHeartbeats 1000000

namespace C2F

/-- Hash algorithm selection (models.rs, enum HashAlgo). -/
inductive HashAlgo where
  | Sha256
  | Blake3
  | Both
deriving DecidableEq

/-- Comparison mode (models.rs, enum Mode). -/
inductive Mode where
  | Realtime
  | Batch
  | Metadata
deriving DecidableEq

/-- Symlink handling policy (models.rs, enum SymlinkMode). -/
inductive SymlinkMode where
  | Ignore
  | Follow
  | Compare
deriving DecidableEq

/-- Pair of optional hex digests (models.rs, struct HashResult). -/
structure HashResult where
  sha256 : Option String
  blake3 : Option String
deriving DecidableEq

/-- One discovered filesystem object (models.rs, struct FileEntry).
SystemTime is modelled as a Nat tick count; paths are strings. -/
structure FileEntry where
  path : String
  size : Nat
  modified : Option Nat
  symlink_target : Option String
deriving DecidableEq

/-- Unit of differ output (models.rs, struct ComparisonResult).
The formatted timestamp strings are kept as Option String, as in the source. -/
structure ComparisonResult where
  file : String
  status : String
  hash1 : Option HashResult
  hash2 : Option HashResult
  size1 : Option Nat
  size2 : Option Nat
  modified1 : Option String
  modified2 : Option String
  symlink1 : Option String
  symlink2 : Option String
deriving DecidableEq

/-- Three-way process outcome (compare.rs, enum ExitStatus). -/
inductive ExitStatus where
  | Success
  | Diff
  | Error
deriving DecidableEq

/-- Whether a SHA-256 hasher is constructed (utils.rs compute_hashes, lines 21-25). -/
def sha256Requested : HashAlgo → Bool
  | .Sha256 => true
  | .Blake3 => false
  | .Both => true

/-- Whether a BLAKE3 hasher is constructed (utils.rs compute_hashes, lines 26-30). -/
def blake3Requested : HashAlgo → Bool
  | .Sha256 => false
  | .Blake3 => true
  | .Both => true

/-- Digest pair obtained from one pass over a file's bytes (utils.rs compute_hashes).
The three size tiers of the source (empty file, buffered read below 32 KiB,
memory map, with data-parallel BLAKE3 above 128 MiB) all feed the same full
byte sequence to the active hashers, so they produce one value. The external
digest functions sha / blake are parameters. -/
def hashResultOf (sha blake : List Nat → String) (algo : HashAlgo) (data : List Nat) : HashResult :=
  { sha256 := if sha256Requested algo then some (sha data) else none
    blake3 := if blake3Requested algo then some (blake data) else none }

/-- utils.rs compute_hashes: opening or reading the file can fail with an I/O
error, modelled by the readBytes oracle returning none. -/
def compute_hashes (sha blake : List Nat → String) (readBytes : String → Option (List Nat))
    (path : String) (algo : HashAlgo) : Option HashResult :=
  (readBytes path).map (hashResultOf sha blake algo)

/-- The logic-relevant fields of compare.rs CompareConfig; the remaining fields
drive collection, I/O and presentation only. -/
structure CompareConfig where
  mode : Mode
  algo : HashAlgo
  symlinks : SymlinkMode
deriving DecidableEq

/-- compare.rs lines 174-178: digest equality under the configured algorithm. -/
def hashMatch : HashAlgo → HashResult → HashResult → Bool
  | .Sha256, h1, h2 => h1.sha256 == h2.sha256
  | .Blake3, h1, h2 => h1.blake3 == h2.blake3
  | .Both, h1, h2 => h1.sha256 == h2.sha256 && h1.blake3 == h2.blake3

/-- compare.rs compare_files_core (lines 60-196). Returns the ComparisonResult
together with the number of hasher invocations performed: the rayon::join at
lines 167-170 invokes compute_hashes once per side, every other branch returns
before reaching it. -/
def compare_files_core (hasher : String → HashAlgo → Option HashResult)
    (cfg : CompareConfig) (rel : String) (e1 e2 : FileEntry) :
    ComparisonResult × Nat :=
  let time1 := e1.modified.map (fun t => toString t)
  let time2 := e2.modified.map (fun t => toString t)
  if cfg.symlinks = SymlinkMode.Compare ∧ e1.symlink_target.isSome ∧ e2.symlink_target.isSome then
    ({ file := rel
       status := if e1.symlink_target = e2.symlink_target then "MATCH" else "DIFF"
       hash1 := none, hash2 := none, size1 := none, size2 := none
       modified1 := time1, modified2 := time2
       symlink1 := e1.symlink_target, symlink2 := e2.symlink_target }, 0)
  else if cfg.symlinks = SymlinkMode.Compare ∧ e1.symlink_target.isSome ≠ e2.symlink_target.isSome then
    ({ file := rel, status := "DIFF"
       hash1 := none, hash2 := none, size1 := none, size2 := none
       modified1 := time1, modified2 := time2
       symlink1 := e1.symlink_target, symlink2 := e2.symlink_target }, 0)
  else if e1.size ≠ e2.size then
    ({ file := rel, status := "DIFF"
       hash1 := none, hash2 := none, size1 := some e1.size, size2 := some e2.size
       modified1 := time1, modified2 := time2
       symlink1 := none, symlink2 := none }, 0)
  else if cfg.mode = Mode.Metadata then
    (if e1.modified ≠ e2.modified then
      { file := rel, status := "DIFF"
        hash1 := none, hash2 := none, size1 := some e1.size, size2 := some e2.size
        modified1 := time1, modified2 := time2
        symlink1 := none, symlink2 := none }
     else
      { file := rel, status := "MATCH"
        hash1 := none, hash2 := none, size1 := some e1.size, size2 := some e2.size
        modified1 := time1, modified2 := time2
        symlink1 := none, symlink2 := none }, 0)
  else
    match hasher e1.path cfg.algo, hasher e2.path cfg.algo with
    | some h1, some h2 =>
      ({ file := rel
         status := if hashMatch cfg.algo h1 h2 then "MATCH" else "DIFF"
         hash1 := some h1, hash2 := some h2
         size1 := some e1.size, size2 := some e2.size
         modified1 := time1, modified2 := time2
         symlink1 := none, symlink2 := none }, 2)
    | _, _ =>
      ({ file := rel, status := "ERROR"
         hash1 := none, hash2 := none
         size1 := some e1.size, size2 := some e2.size
         modified1 := time1, modified2 := time2
         symlink1 := none, symlink2 := none }, 2)

/-- A ComparisonResult with only a path and a status (compare.rs lines 441-469:
the MISSING and EXTRA records of run_batch carry no other fields). -/
def bareResult (k : String) (s : String) : ComparisonResult :=
  { file := k, status := s
    hash1 := none, hash2 := none, size1 := none, size2 := none
    modified1 := none, modified2 := none, symlink1 := none, symlink2 := none }

/-- compare.rs run_batch (lines 345-532): inventories are relative-path-keyed
maps; common paths are classified by compare_files_core, paths only in
folder1 become MISSING, paths only in folder2 become EXTRA. The source draws
the common set from a HashSet (nondeterministic order) and optionally sorts
the result list afterwards; every claim below is order-insensitive, so the
three segments are materialized in input order. -/
def run_batch (hasher : String → HashAlgo → Option HashResult) (cfg : CompareConfig)
    (inv1 inv2 : List (String × FileEntry)) : List ComparisonResult :=
  inv1.filterMap (fun p => (inv2.lookup p.1).map (fun e2 => (compare_files_core hasher cfg p.1 p.2 e2).1))
  ++ (inv1.filter (fun p => (inv2.lookup p.1).isNone)).map (fun p => bareResult p.1 "MISSING")
  ++ (inv2.filter (fun p => (inv1.lookup p.1).isNone)).map (fun p => bareResult p.1 "EXTRA")

/-- Aggregate counters of a run (report.rs SummaryData shape, elapsed time
omitted as a wall-clock quantity). The source field named matches is rendered
here as matched, since matches is reserved syntax in Lean. -/
structure SummaryData where
  total : Nat
  matched : Nat
  diffs : Nat
  missing : Nat
  extra : Nat
  errors : Nat
deriving DecidableEq

/-- Number of results carrying a given status string. -/
def statusCount (s : String) (l : List ComparisonResult) : Nat :=
  (l.filter (fun r => r.status == s)).length

/-- compare.rs run_batch lines 475-506: the summary tallies MATCH, DIFF,
MISSING and EXTRA results; a result whose status is ERROR falls into the
wildcard arm and is tallied nowhere, and the errors field is the walk error
count alone. -/
def batch_summary (walkErrors : Nat) (results : List ComparisonResult) : SummaryData :=
  { total := results.length
    matched := statusCount "MATCH" results
    diffs := statusCount "DIFF" results
    missing := statusCount "MISSING" results
    extra := statusCount "EXTRA" results
    errors := walkErrors }

/-- compare.rs run_batch lines 525-531 (run_realtime lines 336-342 are
identical): exit selection from the summary counters. -/
def batch_exit (s : SummaryData) : ExitStatus :=
  if s.errors > 0 then ExitStatus.Error
  else if s.diffs > 0 ∨ s.missing > 0 ∨ s.extra > 0 then ExitStatus.Diff
  else ExitStatus.Success

/-- compare.rs run_realtime main loop (lines 243-311): iterate folder1's
entries, remove the matching relative path from folder2's map and classify it
with compare_files_core, or report MISSING; the keys left in folder2's map at
the end are EXTRA. Realtime mode prints MISSING/EXTRA lines instead of
materializing ComparisonResult records, so only the (path, status)
classification is modelled. -/
def run_realtime (hasher : String → HashAlgo → Option HashResult) (cfg : CompareConfig) :
    List (String × FileEntry) → List (String × FileEntry) → List (String × String)
  | [], m2 => m2.map (fun p => (p.1, "EXTRA"))
  | (k, e1) :: rest, m2 =>
    match m2.lookup k with
    | some e2 =>
      (k, (compare_files_core hasher cfg k e1 e2).1.status)
        :: run_realtime hasher cfg rest (m2.filter (fun p => p.1 != k))
    | none => (k, "MISSING") :: run_realtime hasher cfg rest m2

/-- One persisted file record (snapshot.rs, struct SnapshotEntry). -/
structure SnapshotEntry where
  rel_path : String
  size : Nat
  modified : Option Nat
  hashes : HashResult
  symlink_target : Option String
deriving DecidableEq

/-- A persisted inventory capture (snapshot.rs, struct Snapshot). -/
structure Snapshot where
  created_at : String
  root_path : String
  files : List SnapshotEntry
  algo : HashAlgo
deriving DecidableEq

/-- snapshot.rs create_snapshot lines 81-92: one SnapshotEntry per collected
file; a compute_hashes failure is swallowed by unwrap_or, storing an empty
digest pair. strip models strip_prefix against the snapshot root. -/
def snapshot_entry_of (sha blake : List Nat → String) (readBytes : String → Option (List Nat))
    (strip : String → String) (algo : HashAlgo) (f : FileEntry) : SnapshotEntry :=
  { rel_path := strip f.path
    size := f.size
    modified := f.modified
    hashes := (compute_hashes sha blake readBytes f.path algo).getD { sha256 := none, blake3 := none }
    symlink_target := f.symlink_target }

/-- snapshot.rs create_snapshot (lines 47-114; serialization I/O omitted). -/
def create_snapshot (sha blake : List Nat → String) (readBytes : String → Option (List Nat))
    (strip : String → String) (createdAt rootPath : String)
    (files : List FileEntry) (algo : HashAlgo) : Snapshot :=
  { created_at := createdAt
    root_path := rootPath
    files := files.map (snapshot_entry_of sha blake readBytes strip algo)
    algo := algo }

/-- snapshot.rs verify_snapshot lines 177-181: the freshly computed digest
pair of the live file is compared, slot by active slot, against the stored
pair under the algorithm recorded in the snapshot. -/
def verifyStatus (algo : HashAlgo) (stored computed : HashResult) : String :=
  match algo with
  | .Sha256 => if computed.sha256 == stored.sha256 then "MATCH" else "DIFF"
  | .Blake3 => if computed.blake3 == stored.blake3 then "MATCH" else "DIFF"
  | .Both =>
    if computed.sha256 == stored.sha256 && computed.blake3 == stored.blake3 then "MATCH"
    else "DIFF"

/-- snapshot.rs verify_snapshot (lines 124-276; file and report I/O omitted):
every snapshot entry is classified, hashing the live file under the
snapshot's recorded algorithm (a hash failure degrades to an empty digest
pair via unwrap_or) - MATCH/DIFF when the path exists live, MISSING when it
does not; live paths absent from the snapshot become EXTRA. -/
def run_verify (hasher : String → HashAlgo → Option HashResult) (snap : Snapshot)
    (current : List (String × FileEntry)) : List ComparisonResult :=
  snap.files.map (fun se =>
    match current.lookup se.rel_path with
    | some cur =>
      let h := (hasher cur.path snap.algo).getD { sha256 := none, blake3 := none }
      { file := se.rel_path
        status := verifyStatus snap.algo se.hashes h
        hash1 := some se.hashes, hash2 := some h
        size1 := some se.size, size2 := some cur.size
        modified1 := none, modified2 := none
        symlink1 := se.symlink_target, symlink2 := cur.symlink_target }
    | none =>
      { file := se.rel_path, status := "MISSING"
        hash1 := some se.hashes, hash2 := none
        size1 := some se.size, size2 := none
        modified1 := none, modified2 := none
        symlink1 := se.symlink_target, symlink2 := none })
  ++ (current.filter (fun p => !((snap.files.map (fun se => se.rel_path)).contains p.1))).map
      (fun p =>
        { file := p.1, status := "EXTRA"
          hash1 := none, hash2 := none
          size1 := none, size2 := some p.2.size
          modified1 := none, modified2 := none
          symlink1 := none, symlink2 := p.2.symlink_target })

/-- The logic-relevant fields of sync.rs SyncConfig (no_delete is declared in
the source but never consulted by the planning or application logic). -/
structure SyncConfig where
  dry_run : Bool
  delete_extraneous : Bool
  no_delete : Bool
  algo : HashAlgo
deriving DecidableEq

/-- sync.rs lines 131-140: inequality of the digest pairs under the configured
algorithm. -/
def isDiffAlgo : HashAlgo → HashResult → HashResult → Bool
  | .Sha256, h1, h2 => !(h1.sha256 == h2.sha256)
  | .Blake3, h1, h2 => !(h1.blake3 == h2.blake3)
  | .Both, h1, h2 => !(h1.sha256 == h2.sha256) || !(h1.blake3 == h2.blake3)

/-- sync.rs run_sync action derivation (lines 112-198). hashS and hashD are
the per-side hashing oracles: the source joins each tree root onto the
relative path and calls compute_hashes on the absolute path, so each side's
oracle is keyed by the FileEntry path stored in that side's inventory. The
source pushes CREATE, DELETE and UPDATE records and sorts them by path before
application; the claims below are order-insensitive, so the sort is not
modelled. update_candidate is the body of the filter_map closure at lines
114-155: skip when the comparison finds the common path identical, UPDATE
otherwise, with a hashing failure on either side treated as different. -/
def update_candidate (hashS hashD : String → HashAlgo → Option HashResult)
    (cfg : SyncConfig) (dstInv : List (String × FileEntry)) (p : String × FileEntry) :
    Option (String × String) :=
  match dstInv.lookup p.1 with
  | none => none
  | some d =>
    if p.2.size = d.size ∧ cfg.algo = HashAlgo.Both ∧ p.2.modified = d.modified then
      none
    else
      let isDiff :=
        match hashS p.2.path cfg.algo, hashD d.path cfg.algo with
        | some hs, some hd => isDiffAlgo cfg.algo hs hd
        | _, _ => true
      if isDiff then some (p.1, "UPDATE") else none

def sync_plan (hashS hashD : String → HashAlgo → Option HashResult) (cfg : SyncConfig)
    (srcInv dstInv : List (String × FileEntry)) : List (String × String) :=
  let updates := srcInv.filterMap (update_candidate hashS hashD cfg dstInv)
  let creates := (srcInv.filter (fun p => (dstInv.lookup p.1).isNone)).map (fun p => (p.1, "CREATE"))
  let deletes :=
    if cfg.delete_extraneous then
      (dstInv.filter (fun p => (srcInv.lookup p.1).isNone)).map (fun p => (p.1, "DELETE"))
    else []
  creates ++ deletes ++ updates

/-- Contents and modification time of one file in a quiescent tree. -/
structure FsFile where
  bytes : List Nat
  mtime : Nat
deriving DecidableEq

/-- A directory tree as a relative-path-keyed map of files. -/
abbrev FsTree := List (String × FsFile)

/-- Overwriting copy to a key: any old entry is replaced by the new one. -/
def upsert (t : FsTree) (k : String) (f : FsFile) : FsTree :=
  t.filter (fun p => p.1 != k) ++ [(k, f)]

/-- fs::remove_file on a key. -/
def eraseKey (t : FsTree) (k : String) : FsTree :=
  t.filter (fun p => p.1 != k)

/-- sync.rs run_sync application loop (lines 212-247). In dry-run mode every
arm only prints, so neither the destination tree nor any counter changes; in
apply mode CREATE and UPDATE copy the source bytes over the destination path
(the copy carrying the fresh modification time tNew) and DELETE removes the
destination file. The counter triple is (created, updated, deleted),
incremented exactly where the source increments it: inside the apply branch
only. -/
def sync_apply (dryRun : Bool) (src : FsTree) (tNew : Nat) :
    FsTree → List (String × String) → FsTree × (Nat × Nat × Nat)
  | dst, [] => (dst, (0, 0, 0))
  | dst, (k, s) :: rest =>
    if dryRun then
      sync_apply dryRun src tNew dst rest
    else if s = "CREATE" ∨ s = "UPDATE" then
      let dst' :=
        match src.lookup k with
        | some f => upsert dst k { bytes := f.bytes, mtime := tNew }
        | none => dst
      let r := sync_apply dryRun src tNew dst' rest
      if s = "CREATE" then (r.1, (r.2.1 + 1, r.2.2.1, r.2.2.2))
      else (r.1, (r.2.1, r.2.2.1 + 1, r.2.2.2))
    else if s = "DELETE" then
      let r := sync_apply dryRun src tNew (eraseKey dst k) rest
      (r.1, (r.2.1, r.2.2.1, r.2.2.2 + 1))
    else
      sync_apply dryRun src tNew dst rest

/-- The FileEntry the collector reports for one file of a quiescent tree:
size is the byte count, the modification time is always known, and the path
field is the tree-relative key, matching the per-side hashing oracles of
sync_plan. -/
def entryOf (k : String) (f : FsFile) : FileEntry :=
  { path := k, size := f.bytes.length, modified := some f.mtime, symlink_target := none }

/-- The collector's inventory of a quiescent tree for sync purposes: one
FileEntry per file, keyed by relative path. -/
def invOf (t : FsTree) : List (String × FileEntry) :=
  t.map (fun p => (p.1, entryOf p.1 p.2))

/-- Hashing oracle over a quiescent tree: reading succeeds exactly for the
tree's files and digests the stored bytes. -/
def treeHasher (sha blake : List Nat → String) (t : FsTree) :
    String → HashAlgo → Option HashResult :=
  fun path algo =>
    compute_hashes sha blake (fun q => (t.lookup q).map (fun f => f.bytes)) path algo

/-- sync.rs run_sync end to end over quiescent trees: collect both sides,
derive the plan, apply it. Returns the plan, the resulting destination tree
and the (created, updated, deleted) counters. -/
def run_sync (sha blake : List Nat → String) (cfg : SyncConfig) (src dst : FsTree)
    (tNew : Nat) : List (String × String) × FsTree × (Nat × Nat × Nat) :=
  let plan := sync_plan (treeHasher sha blake src) (treeHasher sha blake dst) cfg
    (invOf src) (invOf dst)
  let r := sync_apply cfg.dry_run src tNew dst plan
  (plan, r.1, r.2)

/-- sync.rs lines 279-285: exit selection for a sync run. -/
def sync_exit (walkErrors created updated deleted : Nat) : ExitStatus :=
  if walkErrors > 0 then ExitStatus.Error
  else if created > 0 ∨ updated > 0 ∨ deleted > 0 then ExitStatus.Diff
  else ExitStatus.Success

/-- The (path, status) classification carried by a result list. -/
def statusPairs (l : List ComparisonResult) : List (String × String) :=
  l.map (fun r => (r.file, r.status))

/-- Path universe of a comparison: folder1's keys followed by the folder2
keys not present in folder1 (compare.rs lines 407-410 build these sets from
the two inventories). -/
def unionKeys (inv1 inv2 : List (String × FileEntry)) : List String :=
  inv1.map Prod.fst
    ++ (inv2.map Prod.fst).filter (fun k => !((inv1.map Prod.fst).contains k))

/-- Concrete digest function used by witnesses: the byte count. -/
def shaLen : List Nat → String := fun b => toString b.length

/-- Concrete failing hashing oracle used by witnesses. -/
def hasherNone : String → HashAlgo → Option HashResult := fun _ _ => none

/-- Concrete snapshot fixture used by witnesses. -/
def snapFix : Snapshot :=
  ⟨"t0", "root", [⟨"a", 1, none, ⟨some "h", none⟩, none⟩], HashAlgo.Sha256⟩

/-- Concrete live inventory fixture used by witnesses. -/
def curFix : List (String × FileEntry) := [("a", ⟨"pa", 1, none, none⟩)]

/-- Concrete digest function used by witnesses: the byte sum. -/
def blakeSum : List Nat → String := fun b => toString (b.foldl (· + ·) 0)

theorem not_symlink_both (cfg : CompareConfig) (e1 e2 : FileEntry)
    (hsym : ¬ (cfg.symlinks = SymlinkMode.Compare ∧
      (e1.symlink_target.isSome ∨ e2.symlink_target.isSome))) :
    ¬ (cfg.symlinks = SymlinkMode.Compare ∧ e1.symlink_target.isSome ∧
      e2.symlink_target.isSome) :=
  fun ⟨hc, hs1, _⟩ => hsym ⟨hc, Or.inl hs1⟩

theorem not_symlink_one (cfg : CompareConfig) (e1 e2 : FileEntry)
    (hsym : ¬ (cfg.symlinks = SymlinkMode.Compare ∧
      (e1.symlink_target.isSome ∨ e2.symlink_target.isSome))) :
    ¬ (cfg.symlinks = SymlinkMode.Compare ∧
      e1.symlink_target.isSome ≠ e2.symlink_target.isSome) := by
  rintro ⟨hc, hs⟩
  rcases Bool.eq_false_or_eq_true e1.symlink_target.isSome with hb1 | hb1
  · exact hsym ⟨hc, Or.inl hb1⟩
  · rcases Bool.eq_false_or_eq_true e2.symlink_target.isSome with hb2 | hb2
    · exact hsym ⟨hc, Or.inr hb2⟩
    · exact hs (hb1.trans hb2.symm)

/-- C3: for every pair of entries present on both sides whose recorded sizes
differ, and which are not handled by the symlink-compare branches, the
comparison returns status DIFF and the hasher is never invoked for either
file (the invocation count of the result is zero). -/
theorem size_short_circuit (hasher : String → HashAlgo → Option HashResult)
    (cfg : CompareConfig) (rel : String) (e1 e2 : FileEntry)
    (hsym : ¬ (cfg.symlinks = SymlinkMode.Compare ∧
      (e1.symlink_target.isSome ∨ e2.symlink_target.isSome)))
    (hsz : e1.size ≠ e2.size) :
    (compare_files_core hasher cfg rel e1 e2).1.status = "DIFF" ∧
    (compare_files_core hasher cfg rel e1 e2).2 = 0 := by
  have h1 := not_symlink_both cfg e1 e2 hsym
  have h2 := not_symlink_one cfg e1 e2 hsym
  constructor
  · simp only [compare_files_core]
    rw [if_neg h1, if_neg h2, if_pos hsz]
  · simp only [compare_files_core]
    rw [if_neg h1, if_neg h2, if_pos hsz]

/-- Witness for size_short_circuit at a concrete input. -/
theorem size_short_circuit_witness :
    (¬ ((⟨Mode.Batch, HashAlgo.Both, SymlinkMode.Ignore⟩ : CompareConfig).symlinks
        = SymlinkMode.Compare ∧
      ((⟨"p1", 1, none, none⟩ : FileEntry).symlink_target.isSome ∨
       (⟨"p2", 2, none, none⟩ : FileEntry).symlink_target.isSome))) ∧
    ((⟨"p1", 1, none, none⟩ : FileEntry).size ≠ (⟨"p2", 2, none, none⟩ : FileEntry).size) ∧
    ((compare_files_core (fun _ _ => none) ⟨Mode.Batch, HashAlgo.Both, SymlinkMode.Ignore⟩
        "f" ⟨"p1", 1, none, none⟩ ⟨"p2", 2, none, none⟩).1.status = "DIFF" ∧
     (compare_files_core (fun _ _ => none) ⟨Mode.Batch, HashAlgo.Both, SymlinkMode.Ignore⟩
        "f" ⟨"p1", 1, none, none⟩ ⟨"p2", 2, none, none⟩).2 = 0) :=
  ⟨by decide, by decide,
   size_short_circuit (fun _ _ => none) ⟨Mode.Batch, HashAlgo.Both, SymlinkMode.Ignore⟩
     "f" ⟨"p1", 1, none, none⟩ ⟨"p2", 2, none, none⟩ (by decide) (by decide)⟩

/-- C4 counterexample: the claim as stated fails on the code. With symlink
mode Compare, two same-size entries with equal recorded timestamps whose
symlink targets differ are classified DIFF by the Metadata mode, while the
claim requires MATCH whenever the timestamps are equal: the symlink-compare
branch of compare_files_core precedes and overrides the metadata branch. -/
theorem metadata_symlink_override_cex :
    (compare_files_core (fun _ _ => none)
      ⟨Mode.Metadata, HashAlgo.Both, SymlinkMode.Compare⟩ "f"
      ⟨"p1", 1, some 5, some "a"⟩ ⟨"p2", 1, some 5, some "b"⟩).1.status = "DIFF" ∧
    (⟨"p1", 1, some 5, some "a"⟩ : FileEntry).modified
      = (⟨"p2", 1, some 5, some "b"⟩ : FileEntry).modified := by
  constructor
  · rfl
  · rfl

theorem metadata_no_hash (hasher : String → HashAlgo → Option HashResult)
    (algo : HashAlgo) (symlinks : SymlinkMode) (rel : String) (e1 e2 : FileEntry) :
    (compare_files_core hasher ⟨Mode.Metadata, algo, symlinks⟩ rel e1 e2).2 = 0 := by
  simp only [compare_files_core]
  repeat' split
  all_goals first | rfl | (exfalso; simp_all)

/-- C4 (amended): for entries present on both sides with equal sizes that are
not handled by the symlink-compare branches, Metadata mode classifies MATCH
exactly when the recorded modification timestamps are equal and DIFF
otherwise; and in Metadata mode no hash computation ever occurs, for any pair
of entries whatsoever. -/
theorem metadata_mode_amended (hasher : String → HashAlgo → Option HashResult)
    (algo : HashAlgo) (symlinks : SymlinkMode) (rel : String) (e1 e2 : FileEntry)
    (hsym : ¬ (symlinks = SymlinkMode.Compare ∧
      (e1.symlink_target.isSome ∨ e2.symlink_target.isSome)))
    (hsz : e1.size = e2.size) :
    (compare_files_core hasher ⟨Mode.Metadata, algo, symlinks⟩ rel e1 e2).1.status
      = (if e1.modified = e2.modified then "MATCH" else "DIFF") ∧
    (∀ (rel' : String) (f1 f2 : FileEntry),
      (compare_files_core hasher ⟨Mode.Metadata, algo, symlinks⟩ rel' f1 f2).2 = 0) := by
  have h1 := not_symlink_both ⟨Mode.Metadata, algo, symlinks⟩ e1 e2 hsym
  have h2 := not_symlink_one ⟨Mode.Metadata, algo, symlinks⟩ e1 e2 hsym
  constructor
  · simp only [compare_files_core]
    rw [if_neg h1, if_neg h2, if_neg (not_not_intro hsz)]
    by_cases hm : e1.modified = e2.modified
    · simp [hm]
    · simp [hm]
  · intro rel' f1 f2
    exact metadata_no_hash hasher algo symlinks rel' f1 f2

/-- Witness for metadata_mode_amended at a concrete input. -/
theorem metadata_mode_amended_witness :
    (¬ (SymlinkMode.Ignore = SymlinkMode.Compare ∧
      ((⟨"p1", 3, some 7, none⟩ : FileEntry).symlink_target.isSome ∨
       (⟨"p2", 3, some 7, none⟩ : FileEntry).symlink_target.isSome))) ∧
    ((⟨"p1", 3, some 7, none⟩ : FileEntry).size = (⟨"p2", 3, some 7, none⟩ : FileEntry).size) ∧
    ((compare_files_core (fun _ _ => none) ⟨Mode.Metadata, HashAlgo.Both, SymlinkMode.Ignore⟩
        "f" ⟨"p1", 3, some 7, none⟩ ⟨"p2", 3, some 7, none⟩).1.status
      = (if (⟨"p1", 3, some 7, none⟩ : FileEntry).modified
            = (⟨"p2", 3, some 7, none⟩ : FileEntry).modified then "MATCH" else "DIFF") ∧
     (∀ (rel' : String) (f1 f2 : FileEntry),
       (compare_files_core (fun _ _ => none) ⟨Mode.Metadata, HashAlgo.Both, SymlinkMode.Ignore⟩
          rel' f1 f2).2 = 0)) :=
  ⟨by decide, by decide,
   metadata_mode_amended (fun _ _ => none) HashAlgo.Both SymlinkMode.Ignore
     "f" ⟨"p1", 3, some 7, none⟩ ⟨"p2", 3, some 7, none⟩ (by decide) (by decide)⟩

/-- C5 (code_bug evidence): two single-entry inventories share relative path
"a" with equal sizes, and hashing fails on both sides. run_batch still
completes and marks the comparison ERROR, but the run's summary error counter
stays 0 (compare.rs counts only walk errors at lines 386 and 504, and the
status tally at lines 479-486 sends ERROR to the wildcard arm), so the exit
status is Success rather than Error: the hash failure is never added to the
reported error total, contradicting the claim and spec section 7. -/
theorem hash_error_not_counted :
    ((run_batch (fun _ _ => none) ⟨Mode.Batch, HashAlgo.Both, SymlinkMode.Ignore⟩
        [("a", ⟨"s1", 1, none, none⟩)] [("a", ⟨"s2", 1, none, none⟩)]).map
        (fun r => r.status) = ["ERROR"]) ∧
    (batch_summary 0 (run_batch (fun _ _ => none) ⟨Mode.Batch, HashAlgo.Both, SymlinkMode.Ignore⟩
        [("a", ⟨"s1", 1, none, none⟩)] [("a", ⟨"s2", 1, none, none⟩)])).errors = 0 ∧
    batch_exit (batch_summary 0 (run_batch (fun _ _ => none)
        ⟨Mode.Batch, HashAlgo.Both, SymlinkMode.Ignore⟩
        [("a", ⟨"s1", 1, none, none⟩)] [("a", ⟨"s2", 1, none, none⟩)]))
      = ExitStatus.Success := by
  refine ⟨?_, ?_, ?_⟩ <;> decide

/-- C6 counterexample: create_snapshot persists a SnapshotEntry whose sha256
slot is unpopulated even though the SHA-256 algorithm was requested, because
a compute_hashes failure is replaced by an empty digest pair via unwrap_or
(snapshot.rs line 83). -/
theorem snapshot_failed_hash_empty_cex :
    ((snapshot_entry_of (fun _ => "d") (fun _ => "d") (fun _ => none) (fun s => s)
        HashAlgo.Sha256 ⟨"p", 1, none, none⟩).hashes.sha256 = none) ∧
    sha256Requested HashAlgo.Sha256 = true := ⟨rfl, rfl⟩

/-- C6 (amended): every HashResult that compute_hashes successfully returns
has its sha256 slot populated exactly when SHA-256 was requested and its
blake3 slot populated exactly when BLAKE3 was requested; a persisted
SnapshotEntry stores exactly that result whenever hashing succeeded, while a
hashing failure stores an entry with both slots empty. -/
theorem hash_slot_invariant (sha blake : List Nat → String)
    (readBytes : String → Option (List Nat)) (strip : String → String)
    (path : String) (algo : HashAlgo) (h : HashResult)
    (hsucc : compute_hashes sha blake readBytes path algo = some h) :
    (h.sha256.isSome = sha256Requested algo ∧ h.blake3.isSome = blake3Requested algo) ∧
    (∀ (g : FileEntry) (hr : HashResult),
      compute_hashes sha blake readBytes g.path algo = some hr →
        (snapshot_entry_of sha blake readBytes strip algo g).hashes = hr) ∧
    (∀ (g : FileEntry), compute_hashes sha blake readBytes g.path algo = none →
        (snapshot_entry_of sha blake readBytes strip algo g).hashes = ⟨none, none⟩) := by
  refine ⟨?_, ?_, ?_⟩
  · rcases Option.map_eq_some'.mp hsucc with ⟨data, _, rfl⟩
    constructor
    · cases hreq : sha256Requested algo <;> simp [hashResultOf, hreq]
    · cases hreq : blake3Requested algo <;> simp [hashResultOf, hreq]
  · intro g hr hg
    simp [snapshot_entry_of, hg]
  · intro g hg
    simp [snapshot_entry_of, hg]

/-- Witness for hash_slot_invariant at a concrete input. -/
theorem hash_slot_invariant_witness :
    (compute_hashes shaLen blakeSum (fun _ => some [1, 2]) "p" HashAlgo.Both
      = some ⟨some "2", some "3"⟩) ∧
    ((((⟨some "2", some "3"⟩ : HashResult).sha256.isSome = sha256Requested HashAlgo.Both) ∧
      ((⟨some "2", some "3"⟩ : HashResult).blake3.isSome = blake3Requested HashAlgo.Both)) ∧
     (∀ (g : FileEntry) (hr : HashResult),
       compute_hashes shaLen blakeSum (fun _ => some [1, 2]) g.path HashAlgo.Both = some hr →
         (snapshot_entry_of shaLen blakeSum (fun _ => some [1, 2]) (fun s => s)
           HashAlgo.Both g).hashes = hr) ∧
     (∀ (g : FileEntry),
       compute_hashes shaLen blakeSum (fun _ => some [1, 2]) g.path HashAlgo.Both = none →
         (snapshot_entry_of shaLen blakeSum (fun _ => some [1, 2]) (fun s => s)
           HashAlgo.Both g).hashes = ⟨none, none⟩)) :=
  ⟨by decide,
   hash_slot_invariant shaLen blakeSum (fun _ => some [1, 2]) (fun s => s) "p"
     HashAlgo.Both ⟨some "2", some "3"⟩ (by decide)⟩

/-- C7 (code_bug evidence): source tree holds file.txt, destination is empty.
A dry-run sync derives the same action list as the non-dry-run invocation
(one CREATE) and leaves the destination untouched, but its summary counters
are all zero - sync.rs increments created_count, updated_count and
deleted_count only inside the non-dry-run apply branch (lines 224-245) - so
the reported create counter is 0 while one CREATE was planned (the non-dry
run reports 1), and the dry run even exits Success. This contradicts the
claim that the summary counters reflect planned actions. -/
theorem dry_run_counters_zero :
    ((run_sync shaLen blakeSum ⟨true, false, false, HashAlgo.Both⟩
        [("file.txt", ⟨[1, 2], 10⟩)] [] 99).1
      = (run_sync shaLen blakeSum ⟨false, false, false, HashAlgo.Both⟩
        [("file.txt", ⟨[1, 2], 10⟩)] [] 99).1) ∧
    ((run_sync shaLen blakeSum ⟨true, false, false, HashAlgo.Both⟩
        [("file.txt", ⟨[1, 2], 10⟩)] [] 99).2.1 = []) ∧
    ((run_sync shaLen blakeSum ⟨true, false, false, HashAlgo.Both⟩
        [("file.txt", ⟨[1, 2], 10⟩)] [] 99).2.2 = (0, 0, 0)) ∧
    (((run_sync shaLen blakeSum ⟨true, false, false, HashAlgo.Both⟩
        [("file.txt", ⟨[1, 2], 10⟩)] [] 99).1.filter (fun a => a.2 == "CREATE")).length = 1) ∧
    ((run_sync shaLen blakeSum ⟨false, false, false, HashAlgo.Both⟩
        [("file.txt", ⟨[1, 2], 10⟩)] [] 99).2.2 = (1, 0, 0)) ∧
    sync_exit 0 0 0 0 = ExitStatus.Success := by
  refine ⟨?_, ?_, ?_, ?_, ?_, ?_⟩ <;> decide

/-- C10: during sync planning, a hashing failure on either side of a common
path that reaches the hashing step yields an UPDATE action for that path, and
no action status other than CREATE, DELETE or UPDATE is ever planned (no
ERROR, no abort). -/
theorem sync_hash_error_yields_update
    (hashS hashD : String → HashAlgo → Option HashResult) (cfg : SyncConfig)
    (srcInv dstInv : List (String × FileEntry)) (k : String) (es ed : FileEntry)
    (hmem : (k, es) ∈ srcInv)
    (hd : dstInv.lookup k = some ed)
    (hnosc : ¬ (es.size = ed.size ∧ cfg.algo = HashAlgo.Both ∧ es.modified = ed.modified))
    (hfail : hashS es.path cfg.algo = none ∨ hashD ed.path cfg.algo = none) :
    ((k, "UPDATE") ∈ sync_plan hashS hashD cfg srcInv dstInv) ∧
    (∀ a ∈ sync_plan hashS hashD cfg srcInv dstInv,
      a.2 = "CREATE" ∨ a.2 = "DELETE" ∨ a.2 = "UPDATE") := by
  constructor
  · simp only [sync_plan]
    refine List.mem_append_right _ (List.mem_filterMap.mpr ⟨(k, es), hmem, ?_⟩)
    simp only [update_candidate, hd]
    rw [if_neg hnosc]
    rcases hfail with hf | hf <;>
      cases hS : hashS es.path cfg.algo <;>
      cases hD : hashD ed.path cfg.algo <;>
      simp_all
  · intro a ha
    simp only [sync_plan] at ha
    rcases List.mem_append.mp ha with h | h
    · rcases List.mem_append.mp h with h | h
      · rcases List.mem_map.mp h with ⟨p, _, rfl⟩
        exact Or.inl rfl
      · by_cases hflag : cfg.delete_extraneous
        · rw [if_pos hflag] at h
          rcases List.mem_map.mp h with ⟨p, _, rfl⟩
          exact Or.inr (Or.inl rfl)
        · rw [if_neg hflag] at h
          cases h
    · rcases List.mem_filterMap.mp h with ⟨p, _, hg⟩
      refine Or.inr (Or.inr ?_)
      simp only [update_candidate] at hg
      split at hg
      · cases hg
      · split at hg
        · cases hg
        · split at hg
          · cases hg
            rfl
          · cases hg

theorem lookup_isNone_eq (l : List (String × FileEntry)) (k : String) :
    (l.lookup k).isNone = !((l.map Prod.fst).contains k) := by
  induction l with
  | nil => rfl
  | cons p rest ih =>
    obtain ⟨a, b⟩ := p
    by_cases hk : k = a
    · subst hk
      simp [List.lookup]
    · have hb : (k == a) = false := beq_false_of_ne hk
      simp [List.lookup, hb, ih]

theorem isNone_eq_not_isSome (o : Option FileEntry) : o.isNone = !o.isSome := by
  cases o <;> rfl

theorem core_file (hasher : String → HashAlgo → Option HashResult) (cfg : CompareConfig)
    (rel : String) (e1 e2 : FileEntry) :
    (compare_files_core hasher cfg rel e1 e2).1.file = rel := by
  simp only [compare_files_core]
  repeat' split
  all_goals rfl

theorem core_status_cases (hasher : String → HashAlgo → Option HashResult)
    (cfg : CompareConfig) (rel : String) (e1 e2 : FileEntry) :
    (compare_files_core hasher cfg rel e1 e2).1.status = "MATCH" ∨
    (compare_files_core hasher cfg rel e1 e2).1.status = "DIFF" ∨
    (compare_files_core hasher cfg rel e1 e2).1.status = "ERROR" := by
  simp only [compare_files_core]
  repeat' split
  all_goals first
    | exact Or.inl rfl
    | exact Or.inr (Or.inl rfl)
    | exact Or.inr (Or.inr rfl)

theorem keys_common_segment (hasher : String → HashAlgo → Option HashResult)
    (cfg : CompareConfig) (inv1 inv2 : List (String × FileEntry)) :
    (inv1.filterMap (fun p => (inv2.lookup p.1).map
        (fun e2 => (compare_files_core hasher cfg p.1 p.2 e2).1))).map ComparisonResult.file
      = (inv1.filter (fun p => (inv2.lookup p.1).isSome)).map Prod.fst := by
  induction inv1 with
  | nil => rfl
  | cons p rest ih =>
    cases hl : inv2.lookup p.1 with
    | none => simp [List.filterMap_cons, List.filter_cons, hl, ih]
    | some e2 => simp [List.filterMap_cons, List.filter_cons, hl, core_file, ih]

theorem run_batch_keys_perm (hasher : String → HashAlgo → Option HashResult)
    (cfg : CompareConfig) (inv1 inv2 : List (String × FileEntry)) :
    ((run_batch hasher cfg inv1 inv2).map ComparisonResult.file).Perm (unionKeys inv1 inv2) := by
  unfold run_batch unionKeys
  rw [List.map_append, List.map_append, keys_common_segment]
  have hmiss : ((inv1.filter (fun p => (inv2.lookup p.1).isNone)).map
      (fun p => bareResult p.1 "MISSING")).map ComparisonResult.file
      = (inv1.filter (fun p => (inv2.lookup p.1).isNone)).map Prod.fst := by
    rw [List.map_map]
    rfl
  have hextra : ((inv2.filter (fun p => (inv1.lookup p.1).isNone)).map
      (fun p => bareResult p.1 "EXTRA")).map ComparisonResult.file
      = (inv2.map Prod.fst).filter (fun k => !((inv1.map Prod.fst).contains k)) := by
    rw [List.map_map]
    have hcong : inv2.filter (fun p => (inv1.lookup p.1).isNone)
        = inv2.filter (fun p => !((inv1.map Prod.fst).contains p.1)) :=
      List.filter_congr (fun x _ => by rw [lookup_isNone_eq])
    have hmf : ((inv2.filter (fun p => !((inv1.map Prod.fst).contains p.1))).map Prod.fst)
        = (inv2.map Prod.fst).filter (fun k => !((inv1.map Prod.fst).contains k)) :=
      (List.map_filter (p := fun k => !((inv1.map Prod.fst).contains k)) Prod.fst inv2).symm
    rw [hcong, ← hmf]
    rfl
  rw [hmiss, hextra]
  refine List.Perm.append ?_ (List.Perm.refl _)
  have hcong2 : inv1.filter (fun p => (inv2.lookup p.1).isNone)
      = inv1.filter (fun p => !((inv2.lookup p.1).isSome)) :=
    List.filter_congr (fun x _ => by rw [isNone_eq_not_isSome])
  rw [hcong2, ← List.map_append]
  exact List.Perm.map Prod.fst (List.filter_append_perm _ inv1)

theorem unionKeys_nodup (inv1 inv2 : List (String × FileEntry))
    (h1 : (inv1.map Prod.fst).Nodup) (h2 : (inv2.map Prod.fst).Nodup) :
    (unionKeys inv1 inv2).Nodup := by
  refine List.Nodup.append h1 (List.Nodup.filter _ h2) ?_
  intro a ha1 ha2
  rcases List.mem_filter.mp ha2 with ⟨_, hcond⟩
  have hfalse : (inv1.map Prod.fst).contains a = false := by
    cases hc : (inv1.map Prod.fst).contains a
    · rfl
    · rw [hc] at hcond
      cases hcond
  have hc2 : (inv1.map Prod.fst).contains a = true := List.elem_iff.mpr ha1
  rw [hfalse] at hc2
  cases hc2

theorem run_batch_statuses (hasher : String → HashAlgo → Option HashResult)
    (cfg : CompareConfig) (inv1 inv2 : List (String × FileEntry)) :
    ∀ r ∈ run_batch hasher cfg inv1 inv2,
      r.status = "MATCH" ∨ r.status = "DIFF" ∨ r.status = "MISSING" ∨
      r.status = "EXTRA" ∨ r.status = "ERROR" := by
  intro r hr
  unfold run_batch at hr
  rcases List.mem_append.mp hr with h | h
  · rcases List.mem_append.mp h with h | h
    · rcases List.mem_filterMap.mp h with ⟨p, _, hg⟩
      rcases Option.map_eq_some'.mp hg with ⟨e2, _, rfl⟩
      rcases core_status_cases hasher cfg p.1 p.2 e2 with h5 | h5 | h5
      · exact Or.inl h5
      · exact Or.inr (Or.inl h5)
      · exact Or.inr (Or.inr (Or.inr (Or.inr h5)))
    · rcases List.mem_map.mp h with ⟨p, _, rfl⟩
      exact Or.inr (Or.inr (Or.inl rfl))
  · rcases List.mem_map.mp h with ⟨p, _, rfl⟩
    exact Or.inr (Or.inr (Or.inr (Or.inl rfl)))

theorem statusCount_cons (s : String) (r : ComparisonResult) (l : List ComparisonResult) :
    statusCount s (r :: l) = (if r.status == s then 1 else 0) + statusCount s l := by
  simp only [statusCount, List.filter_cons]
  split
  · simp [Nat.add_comm]
  · simp

theorem statusCount_five (l : List ComparisonResult)
    (h : ∀ r ∈ l, r.status = "MATCH" ∨ r.status = "DIFF" ∨ r.status = "MISSING" ∨
      r.status = "EXTRA" ∨ r.status = "ERROR") :
    statusCount "MATCH" l + statusCount "DIFF" l + statusCount "MISSING" l +
      statusCount "EXTRA" l + statusCount "ERROR" l = l.length := by
  induction l with
  | nil => rfl
  | cons r rest ih =>
    have hr := h r (List.mem_cons_self r rest)
    have ih' := ih (fun x hx => h x (List.mem_cons_of_mem r hx))
    rcases hr with h5 | h5 | h5 | h5 | h5 <;>
      simp only [statusCount_cons, h5, List.length_cons] <;>
      simp <;> omega

/-- C1: for any two inventories, run_batch classifies exactly the union of
the two path sets - the multiset of result paths is a permutation of the
duplicate-free union key list - every result's status is one of MATCH, DIFF,
MISSING, EXTRA, ERROR, and the five per-status counts sum to the size of the
union of the two path sets. -/
theorem batch_classification_complete (hasher : String → HashAlgo → Option HashResult)
    (cfg : CompareConfig) (inv1 inv2 : List (String × FileEntry))
    (h1 : (inv1.map Prod.fst).Nodup) (h2 : (inv2.map Prod.fst).Nodup) :
    ((run_batch hasher cfg inv1 inv2).map ComparisonResult.file).Perm (unionKeys inv1 inv2) ∧
    (unionKeys inv1 inv2).Nodup ∧
    (∀ r ∈ run_batch hasher cfg inv1 inv2,
      r.status = "MATCH" ∨ r.status = "DIFF" ∨ r.status = "MISSING" ∨
      r.status = "EXTRA" ∨ r.status = "ERROR") ∧
    (statusCount "MATCH" (run_batch hasher cfg inv1 inv2)
      + statusCount "DIFF" (run_batch hasher cfg inv1 inv2)
      + statusCount "MISSING" (run_batch hasher cfg inv1 inv2)
      + statusCount "EXTRA" (run_batch hasher cfg inv1 inv2)
      + statusCount "ERROR" (run_batch hasher cfg inv1 inv2)
      = (unionKeys inv1 inv2).length) := by
  refine ⟨run_batch_keys_perm hasher cfg inv1 inv2, unionKeys_nodup inv1 inv2 h1 h2,
    run_batch_statuses hasher cfg inv1 inv2, ?_⟩
  have hlen : (run_batch hasher cfg inv1 inv2).length = (unionKeys inv1 inv2).length := by
    have hp := (run_batch_keys_perm hasher cfg inv1 inv2).length_eq
    rwa [List.length_map] at hp
  rw [statusCount_five _ (run_batch_statuses hasher cfg inv1 inv2), hlen]

/-- Witness for batch_classification_complete at a concrete input: the
scenario of spec section 8 (a.txt on both sides, b.txt only in folder1,
c.txt only in folder2). -/
theorem batch_classification_complete_witness :
    ((([("a.txt", ⟨"1a", 5, none, none⟩), ("b.txt", ⟨"1b", 1, none, none⟩)] :
        List (String × FileEntry)).map Prod.fst).Nodup ∧
     (([("a.txt", ⟨"2a", 5, none, none⟩), ("c.txt", ⟨"2c", 1, none, none⟩)] :
        List (String × FileEntry)).map Prod.fst).Nodup) ∧
    (((run_batch (fun _ _ => some ⟨some "x", some "y"⟩)
          ⟨Mode.Batch, HashAlgo.Both, SymlinkMode.Ignore⟩
          [("a.txt", ⟨"1a", 5, none, none⟩), ("b.txt", ⟨"1b", 1, none, none⟩)]
          [("a.txt", ⟨"2a", 5, none, none⟩), ("c.txt", ⟨"2c", 1, none, none⟩)]).map
        ComparisonResult.file).Perm
        (unionKeys [("a.txt", ⟨"1a", 5, none, none⟩), ("b.txt", ⟨"1b", 1, none, none⟩)]
          [("a.txt", ⟨"2a", 5, none, none⟩), ("c.txt", ⟨"2c", 1, none, none⟩)]) ∧
     (unionKeys [("a.txt", ⟨"1a", 5, none, none⟩), ("b.txt", ⟨"1b", 1, none, none⟩)]
        [("a.txt", ⟨"2a", 5, none, none⟩), ("c.txt", ⟨"2c", 1, none, none⟩)]).Nodup ∧
     (∀ r ∈ run_batch (fun _ _ => some ⟨some "x", some "y"⟩)
          ⟨Mode.Batch, HashAlgo.Both, SymlinkMode.Ignore⟩
          [("a.txt", ⟨"1a", 5, none, none⟩), ("b.txt", ⟨"1b", 1, none, none⟩)]
          [("a.txt", ⟨"2a", 5, none, none⟩), ("c.txt", ⟨"2c", 1, none, none⟩)],
       r.status = "MATCH" ∨ r.status = "DIFF" ∨ r.status = "MISSING" ∨
       r.status = "EXTRA" ∨ r.status = "ERROR") ∧
     (statusCount "MATCH" (run_batch (fun _ _ => some ⟨some "x", some "y"⟩)
          ⟨Mode.Batch, HashAlgo.Both, SymlinkMode.Ignore⟩
          [("a.txt", ⟨"1a", 5, none, none⟩), ("b.txt", ⟨"1b", 1, none, none⟩)]
          [("a.txt", ⟨"2a", 5, none, none⟩), ("c.txt", ⟨"2c", 1, none, none⟩)])
       + statusCount "DIFF" (run_batch (fun _ _ => some ⟨some "x", some "y"⟩)
          ⟨Mode.Batch, HashAlgo.Both, SymlinkMode.Ignore⟩
          [("a.txt", ⟨"1a", 5, none, none⟩), ("b.txt", ⟨"1b", 1, none, none⟩)]
          [("a.txt", ⟨"2a", 5, none, none⟩), ("c.txt", ⟨"2c", 1, none, none⟩)])
       + statusCount "MISSING" (run_batch (fun _ _ => some ⟨some "x", some "y"⟩)
          ⟨Mode.Batch, HashAlgo.Both, SymlinkMode.Ignore⟩
          [("a.txt", ⟨"1a", 5, none, none⟩), ("b.txt", ⟨"1b", 1, none, none⟩)]
          [("a.txt", ⟨"2a", 5, none, none⟩), ("c.txt", ⟨"2c", 1, none, none⟩)])
       + statusCount "EXTRA" (run_batch (fun _ _ => some ⟨some "x", some "y"⟩)
          ⟨Mode.Batch, HashAlgo.Both, SymlinkMode.Ignore⟩
          [("a.txt", ⟨"1a", 5, none, none⟩), ("b.txt", ⟨"1b", 1, none, none⟩)]
          [("a.txt", ⟨"2a", 5, none, none⟩), ("c.txt", ⟨"2c", 1, none, none⟩)])
       + statusCount "ERROR" (run_batch (fun _ _ => some ⟨some "x", some "y"⟩)
          ⟨Mode.Batch, HashAlgo.Both, SymlinkMode.Ignore⟩
          [("a.txt", ⟨"1a", 5, none, none⟩), ("b.txt", ⟨"1b", 1, none, none⟩)]
          [("a.txt", ⟨"2a", 5, none, none⟩), ("c.txt", ⟨"2c", 1, none, none⟩)])
       = (unionKeys [("a.txt", ⟨"1a", 5, none, none⟩), ("b.txt", ⟨"1b", 1, none, none⟩)]
          [("a.txt", ⟨"2a", 5, none, none⟩), ("c.txt", ⟨"2c", 1, none, none⟩)]).length)) :=
  ⟨⟨by decide, by decide⟩,
   batch_classification_complete (fun _ _ => some ⟨some "x", some "y"⟩)
     ⟨Mode.Batch, HashAlgo.Both, SymlinkMode.Ignore⟩
     [("a.txt", ⟨"1a", 5, none, none⟩), ("b.txt", ⟨"1b", 1, none, none⟩)]
     [("a.txt", ⟨"2a", 5, none, none⟩), ("c.txt", ⟨"2c", 1, none, none⟩)]
     (by decide) (by decide)⟩

/-- Witness for sync_hash_error_yields_update at a concrete input. -/
theorem sync_hash_error_yields_update_witness :
    ((("a", (⟨"sa", 1, none, none⟩ : FileEntry)) ∈
        ([("a", ⟨"sa", 1, none, none⟩)] : List (String × FileEntry))) ∧
     (([("a", ⟨"da", 2, none, none⟩)] : List (String × FileEntry)).lookup "a"
        = some ⟨"da", 2, none, none⟩) ∧
     (¬ ((⟨"sa", 1, none, none⟩ : FileEntry).size = (⟨"da", 2, none, none⟩ : FileEntry).size ∧
        (⟨false, false, false, HashAlgo.Sha256⟩ : SyncConfig).algo = HashAlgo.Both ∧
        (⟨"sa", 1, none, none⟩ : FileEntry).modified
          = (⟨"da", 2, none, none⟩ : FileEntry).modified))) ∧
    ((("a", "UPDATE") ∈ sync_plan (fun _ _ => none) (fun _ _ => none)
        ⟨false, false, false, HashAlgo.Sha256⟩
        [("a", ⟨"sa", 1, none, none⟩)] [("a", ⟨"da", 2, none, none⟩)]) ∧
     (∀ a ∈ sync_plan (fun _ _ => none) (fun _ _ => none)
        ⟨false, false, false, HashAlgo.Sha256⟩
        [("a", ⟨"sa", 1, none, none⟩)] [("a", ⟨"da", 2, none, none⟩)],
        a.2 = "CREATE" ∨ a.2 = "DELETE" ∨ a.2 = "UPDATE")) :=
  ⟨⟨by decide, by decide, by decide⟩,
   sync_hash_error_yields_update (fun _ _ => none) (fun _ _ => none)
     ⟨false, false, false, HashAlgo.Sha256⟩
     [("a", ⟨"sa", 1, none, none⟩)] [("a", ⟨"da", 2, none, none⟩)]
     "a" ⟨"sa", 1, none, none⟩ ⟨"da", 2, none, none⟩
     (by decide) (by decide) (by decide) (Or.inl rfl)⟩

theorem core_mode_irrelevant (hasher : String → HashAlgo → Option HashResult)
    (m1 m2 : Mode) (algo : HashAlgo) (symlinks : SymlinkMode) (rel : String)
    (e1 e2 : FileEntry) (hm1 : m1 ≠ Mode.Metadata) (hm2 : m2 ≠ Mode.Metadata) :
    compare_files_core hasher ⟨m1, algo, symlinks⟩ rel e1 e2
      = compare_files_core hasher ⟨m2, algo, symlinks⟩ rel e1 e2 := by
  simp only [compare_files_core]
  rw [if_neg hm1, if_neg hm2]

theorem lookup_filter_ne {β : Type} (m2 : List (String × β)) (k x : String) (hx : x ≠ k) :
    (m2.filter (fun p => p.1 != k)).lookup x = m2.lookup x := by
  induction m2 with
  | nil => rfl
  | cons p rest ih =>
    obtain ⟨a, b⟩ := p
    by_cases hak : a = k
    · subst hak
      have hb : (x == a) = false := beq_false_of_ne hx
      simp [List.filter_cons, List.lookup, hb, ih]
    · have hcond : (a != k) = true := by
        simp [bne, beq_false_of_ne hak]
      by_cases hxa : x = a
      · subst hxa
        simp [List.filter_cons, hcond, List.lookup]
      · have hb : (x == a) = false := beq_false_of_ne hxa
        simp [List.filter_cons, hcond, List.lookup, hb, ih]

theorem lookup_none_not_key (m2 : List (String × FileEntry)) (k : String)
    (hl : m2.lookup k = none) : ∀ q ∈ m2, q.1 ≠ k := by
  intro q hq hqk
  have h1 : (m2.lookup k).isNone = !((m2.map Prod.fst).contains k) := lookup_isNone_eq m2 k
  rw [hl] at h1
  have hmem : k ∈ m2.map Prod.fst := List.mem_map.mpr ⟨q, hq, hqk⟩
  have hc : (m2.map Prod.fst).contains k = true := List.elem_iff.mpr hmem
  rw [hc] at h1
  cases h1

theorem statusPairs_run_batch (hasher : String → HashAlgo → Option HashResult)
    (cfg : CompareConfig) (inv1 inv2 : List (String × FileEntry)) :
    statusPairs (run_batch hasher cfg inv1 inv2)
      = inv1.filterMap (fun p => (inv2.lookup p.1).map
          (fun e2 => (p.1, (compare_files_core hasher cfg p.1 p.2 e2).1.status)))
        ++ (inv1.filter (fun p => (inv2.lookup p.1).isNone)).map (fun p => (p.1, "MISSING"))
        ++ (inv2.filter (fun p => (inv1.lookup p.1).isNone)).map (fun p => (p.1, "EXTRA")) := by
  unfold statusPairs run_batch
  rw [List.map_append, List.map_append, List.map_filterMap, List.map_map, List.map_map]
  congr 1
  congr 1
  apply List.filterMap_congr
  intro x _
  cases hl : inv2.lookup x.1 with
  | none => rfl
  | some e2 => simp [core_file]

theorem realtime_batch_perm_aux (hasher : String → HashAlgo → Option HashResult)
    (algo : HashAlgo) (symlinks : SymlinkMode) :
    ∀ (inv1 m2 : List (String × FileEntry)), (inv1.map Prod.fst).Nodup →
    (run_realtime hasher ⟨Mode.Realtime, algo, symlinks⟩ inv1 m2).Perm
      (statusPairs (run_batch hasher ⟨Mode.Batch, algo, symlinks⟩ inv1 m2)) := by
  intro inv1
  induction inv1 with
  | nil =>
    intro m2 _
    rw [statusPairs_run_batch]
    simp [run_realtime, List.lookup]
  | cons hd rest ih =>
    intro m2 hnd
    obtain ⟨k, e1⟩ := hd
    have hndcons : k ∉ rest.map Prod.fst ∧ (rest.map Prod.fst).Nodup := by
      rw [List.map_cons] at hnd
      exact ⟨(List.nodup_cons.mp hnd).1, (List.nodup_cons.mp hnd).2⟩
    have hkrest : ∀ x ∈ rest, x.1 ≠ k := by
      intro x hx hxk
      exact hndcons.1 (List.mem_map.mpr ⟨x, hx, hxk⟩)
    cases hl : m2.lookup k with
    | some e2 =>
      have hrt : run_realtime hasher ⟨Mode.Realtime, algo, symlinks⟩ ((k, e1) :: rest) m2
          = (k, (compare_files_core hasher ⟨Mode.Realtime, algo, symlinks⟩ k e1 e2).1.status)
            :: run_realtime hasher ⟨Mode.Realtime, algo, symlinks⟩ rest
                (m2.filter (fun p => p.1 != k)) := by
        simp [run_realtime, hl]
      have hcommon : rest.filterMap (fun p => (m2.lookup p.1).map
            (fun f2 => (p.1, (compare_files_core hasher ⟨Mode.Batch, algo, symlinks⟩ p.1 p.2 f2).1.status)))
          = rest.filterMap (fun p => ((m2.filter (fun q => q.1 != k)).lookup p.1).map
            (fun f2 => (p.1, (compare_files_core hasher ⟨Mode.Batch, algo, symlinks⟩ p.1 p.2 f2).1.status))) :=
        List.filterMap_congr (fun x hx => by rw [lookup_filter_ne m2 k x.1 (hkrest x hx)])
      have hmissing : rest.filter (fun p => (m2.lookup p.1).isNone)
          = rest.filter (fun p => ((m2.filter (fun q => q.1 != k)).lookup p.1).isNone) :=
        List.filter_congr (fun x hx => by rw [lookup_filter_ne m2 k x.1 (hkrest x hx)])
      have hextra : m2.filter (fun q => ((((k, e1) :: rest)).lookup q.1).isNone)
          = (m2.filter (fun q => q.1 != k)).filter (fun q => (rest.lookup q.1).isNone) := by
        rw [List.filter_filter]
        apply List.filter_congr
        intro x _
        cases hxk : (x.1 == k) with
        | true => simp [List.lookup, hxk, bne]
        | false => simp [List.lookup, hxk, bne]
      rw [statusPairs_run_batch]
      simp only [List.filterMap_cons, List.filter_cons, hl, Option.map_some',
        Option.isNone_some, Bool.false_eq_true, if_false]
      rw [hcommon, hmissing, hextra, hrt]
      rw [core_mode_irrelevant hasher Mode.Realtime Mode.Batch algo symlinks k e1 e2
        (by simp) (by simp)]
      refine List.Perm.cons _ ?_
      have := ih (m2.filter (fun p => p.1 != k)) hndcons.2
      rwa [statusPairs_run_batch] at this
    | none =>
      have hrt : run_realtime hasher ⟨Mode.Realtime, algo, symlinks⟩ ((k, e1) :: rest) m2
          = (k, "MISSING") :: run_realtime hasher ⟨Mode.Realtime, algo, symlinks⟩ rest m2 := by
        simp [run_realtime, hl]
      have hextra : m2.filter (fun q => ((((k, e1) :: rest)).lookup q.1).isNone)
          = m2.filter (fun q => (rest.lookup q.1).isNone) := by
        apply List.filter_congr
        intro x hx
        have hxk : (x.1 == k) = false := beq_false_of_ne (lookup_none_not_key m2 k hl x hx)
        simp [List.lookup, hxk]
      rw [statusPairs_run_batch, hrt]
      simp only [List.filterMap_cons, List.filter_cons, hl, Option.map_none',
        Option.isNone_none, if_true]
      rw [hextra]
      have hperm := ih m2 hndcons.2
      rw [statusPairs_run_batch] at hperm
      refine (hperm.cons (k, "MISSING")).trans ?_
      refine List.Perm.trans ?_ (List.Perm.append List.perm_middle.symm (List.Perm.refl _))
      exact List.Perm.refl _

/-- C2: for the same pair of inventories and the same algorithm and symlink
policy, Realtime mode and Batch mode produce the same multiset of
(relative path, status) classifications - every path gets the same status and
every per-status count agrees - differing only in delivery order. -/
theorem realtime_batch_equiv (hasher : String → HashAlgo → Option HashResult)
    (algo : HashAlgo) (symlinks : SymlinkMode) (inv1 inv2 : List (String × FileEntry))
    (h1 : (inv1.map Prod.fst).Nodup) :
    (run_realtime hasher ⟨Mode.Realtime, algo, symlinks⟩ inv1 inv2).Perm
      (statusPairs (run_batch hasher ⟨Mode.Batch, algo, symlinks⟩ inv1 inv2)) :=
  realtime_batch_perm_aux hasher algo symlinks inv1 inv2 h1

/-- Witness for realtime_batch_equiv at a concrete input. -/
theorem realtime_batch_equiv_witness :
    ((([("a.txt", ⟨"1a", 5, none, none⟩), ("b.txt", ⟨"1b", 1, none, none⟩)] :
        List (String × FileEntry)).map Prod.fst).Nodup) ∧
    (run_realtime (fun _ _ => some ⟨some "x", some "y"⟩)
        ⟨Mode.Realtime, HashAlgo.Both, SymlinkMode.Ignore⟩
        [("a.txt", ⟨"1a", 5, none, none⟩), ("b.txt", ⟨"1b", 1, none, none⟩)]
        [("a.txt", ⟨"2a", 5, none, none⟩), ("c.txt", ⟨"2c", 1, none, none⟩)]).Perm
      (statusPairs (run_batch (fun _ _ => some ⟨some "x", some "y"⟩)
        ⟨Mode.Batch, HashAlgo.Both, SymlinkMode.Ignore⟩
        [("a.txt", ⟨"1a", 5, none, none⟩), ("b.txt", ⟨"1b", 1, none, none⟩)]
        [("a.txt", ⟨"2a", 5, none, none⟩), ("c.txt", ⟨"2c", 1, none, none⟩)])) :=
  ⟨by decide,
   realtime_batch_equiv (fun _ _ => some ⟨some "x", some "y"⟩)
     HashAlgo.Both SymlinkMode.Ignore
     [("a.txt", ⟨"1a", 5, none, none⟩), ("b.txt", ⟨"1b", 1, none, none⟩)]
     [("a.txt", ⟨"2a", 5, none, none⟩), ("c.txt", ⟨"2c", 1, none, none⟩)]
     (by decide)⟩

theorem lookup_pairs_of_mem (l : List SnapshotEntry) (v : SnapshotEntry → String)
    (hnd : (l.map SnapshotEntry.rel_path).Nodup) (se : SnapshotEntry) (hse : se ∈ l) :
    (l.map (fun x => (x.rel_path, v x))).lookup se.rel_path = some (v se) := by
  induction l with
  | nil => cases hse
  | cons a rest ih =>
    rw [List.map_cons] at hnd
    rcases List.mem_cons.mp hse with rfl | hmem
    · simp [List.lookup]
    · have hne : se.rel_path ≠ a.rel_path := by
        intro he
        exact (List.nodup_cons.mp hnd).1
          (List.mem_map.mpr ⟨se, hmem, he⟩)
      have hb : (se.rel_path == a.rel_path) = false := beq_false_of_ne hne
      simp only [List.map_cons, List.lookup, hb]
      exact ih (List.nodup_cons.mp hnd).2 hmem

theorem lookup_pairs_of_not_mem (l : List SnapshotEntry) (v : SnapshotEntry → String)
    (k : String) (hk : k ∉ l.map SnapshotEntry.rel_path) :
    (l.map (fun x => (x.rel_path, v x))).lookup k = none := by
  induction l with
  | nil => rfl
  | cons a rest ih =>
    rw [List.map_cons] at hk
    have hne : k ≠ a.rel_path := fun he => hk (he ▸ List.mem_cons_self _ _)
    have hb : (k == a.rel_path) = false := beq_false_of_ne hne
    simp only [List.map_cons, List.lookup, hb]
    exact ih (fun hm => hk (List.mem_cons_of_mem _ hm))

theorem lookup_append_of_some {β : Type} (A B : List (String × β)) (k : String) (v : β)
    (h : A.lookup k = some v) : (A ++ B).lookup k = some v := by
  induction A with
  | nil => cases h
  | cons p rest ih =>
    obtain ⟨a, b⟩ := p
    by_cases hk : k = a
    · subst hk
      simp [List.lookup] at h ⊢
      exact h
    · have hb : (k == a) = false := beq_false_of_ne hk
      simp only [List.cons_append, List.lookup, hb] at h ⊢
      exact ih h

theorem lookup_append_of_none {β : Type} (A B : List (String × β)) (k : String)
    (h : A.lookup k = none) : (A ++ B).lookup k = B.lookup k := by
  induction A with
  | nil => rfl
  | cons p rest ih =>
    obtain ⟨a, b⟩ := p
    by_cases hk : k = a
    · subst hk
      simp [List.lookup] at h
    · have hb : (k == a) = false := beq_false_of_ne hk
      simp only [List.cons_append, List.lookup, hb] at h ⊢
      exact ih h

theorem lookup_const_pairs (l : List (String × FileEntry)) (s : String) (k : String)
    (h : k ∈ l.map Prod.fst) : (l.map (fun p => (p.1, s))).lookup k = some s := by
  induction l with
  | nil => cases h
  | cons p rest ih =>
    rw [List.map_cons] at h
    by_cases hk : k = p.1
    · subst hk
      simp [List.lookup]
    · have hb : (k == p.1) = false := beq_false_of_ne hk
      simp only [List.map_cons, List.lookup, hb]
      exact ih (List.mem_of_ne_of_mem hk h)

theorem verifyStatus_cases (algo : HashAlgo) (stored computed : HashResult) :
    verifyStatus algo stored computed = "MATCH" ∨ verifyStatus algo stored computed = "DIFF" := by
  cases algo with
  | Sha256 =>
    by_cases h : (computed.sha256 == stored.sha256) = true
    · exact Or.inl (by simp [verifyStatus, h])
    · exact Or.inr (by simp [verifyStatus, h])
  | Blake3 =>
    by_cases h : (computed.blake3 == stored.blake3) = true
    · exact Or.inl (by simp [verifyStatus, h])
    · exact Or.inr (by simp [verifyStatus, h])
  | Both =>
    by_cases h : (computed.sha256 == stored.sha256 && computed.blake3 == stored.blake3) = true
    · exact Or.inl (by simp [verifyStatus, h])
    · exact Or.inr (by simp [verifyStatus, h])

theorem statusPairs_run_verify (hasher : String → HashAlgo → Option HashResult)
    (snap : Snapshot) (cur : List (String × FileEntry)) :
    statusPairs (run_verify hasher snap cur)
      = snap.files.map (fun se =>
          (se.rel_path, match cur.lookup se.rel_path with
            | some ce => verifyStatus snap.algo se.hashes
                ((hasher ce.path snap.algo).getD ⟨none, none⟩)
            | none => "MISSING"))
        ++ (cur.filter (fun p => !((snap.files.map (fun se => se.rel_path)).contains p.1))).map
            (fun p => (p.1, "EXTRA")) := by
  unfold statusPairs run_verify
  rw [List.map_append, List.map_map, List.map_map]
  congr 1
  apply List.map_congr_left
  intro se _
  dsimp only [Function.comp_apply]
  cases hc : cur.lookup se.rel_path <;> rfl

/-- C8: snapshot verification is self-describing. The classification depends
on the hashing oracle only at the algorithm recorded inside the snapshot
(first conjunct), a common path's status is a function of the stored digest
pair and the freshly computed digest pair alone - no size is consulted
(second conjunct) - a snapshot path absent live is MISSING, a live path
absent from the snapshot is EXTRA, and every result's status is one of
MATCH, DIFF, MISSING, EXTRA. -/
theorem verify_self_describing (hasher : String → HashAlgo → Option HashResult)
    (snap : Snapshot) (cur : List (String × FileEntry))
    (hnd : (snap.files.map SnapshotEntry.rel_path).Nodup) :
    (∀ hasher2 : String → HashAlgo → Option HashResult,
      (∀ p, hasher2 p snap.algo = hasher p snap.algo) →
      run_verify hasher2 snap cur = run_verify hasher snap cur) ∧
    (∀ se ∈ snap.files, ∀ ce : FileEntry, cur.lookup se.rel_path = some ce →
      (statusPairs (run_verify hasher snap cur)).lookup se.rel_path
        = some (verifyStatus snap.algo se.hashes ((hasher ce.path snap.algo).getD ⟨none, none⟩))) ∧
    (∀ se ∈ snap.files, cur.lookup se.rel_path = none →
      (statusPairs (run_verify hasher snap cur)).lookup se.rel_path = some "MISSING") ∧
    (∀ p ∈ cur, p.1 ∉ snap.files.map SnapshotEntry.rel_path →
      (statusPairs (run_verify hasher snap cur)).lookup p.1 = some "EXTRA") ∧
    (∀ r ∈ run_verify hasher snap cur,
      r.status = "MATCH" ∨ r.status = "DIFF" ∨ r.status = "MISSING" ∨ r.status = "EXTRA") := by
  refine ⟨?_, ?_, ?_, ?_, ?_⟩
  · intro hasher2 hag
    unfold run_verify
    simp only [hag]
  · intro se hse ce hce
    rw [statusPairs_run_verify]
    have hl := lookup_pairs_of_mem snap.files
      (fun x => match cur.lookup x.rel_path with
        | some c => verifyStatus snap.algo x.hashes ((hasher c.path snap.algo).getD ⟨none, none⟩)
        | none => "MISSING") hnd se hse
    dsimp only at hl
    rw [hce] at hl
    exact lookup_append_of_some _ _ _ _ hl
  · intro se hse hnone
    rw [statusPairs_run_verify]
    have hl := lookup_pairs_of_mem snap.files
      (fun x => match cur.lookup x.rel_path with
        | some c => verifyStatus snap.algo x.hashes ((hasher c.path snap.algo).getD ⟨none, none⟩)
        | none => "MISSING") hnd se hse
    dsimp only at hl
    rw [hnone] at hl
    exact lookup_append_of_some _ _ _ _ hl
  · intro p hp hnot
    rw [statusPairs_run_verify]
    rw [lookup_append_of_none _ _ _ (lookup_pairs_of_not_mem snap.files _ p.1 hnot)]
    apply lookup_const_pairs
    have hcond : (!((snap.files.map (fun se => se.rel_path)).contains p.1)) = true := by
      cases hc : (snap.files.map (fun se => se.rel_path)).contains p.1
      · rfl
      · exact absurd (List.elem_iff.mp hc) hnot
    exact List.mem_map.mpr ⟨p, List.mem_filter.mpr ⟨hp, hcond⟩, rfl⟩
  · intro r hr
    unfold run_verify at hr
    rcases List.mem_append.mp hr with h | h
    · rcases List.mem_map.mp h with ⟨se, _, rfl⟩
      cases hc : cur.lookup se.rel_path with
      | none => simp [hc]
      | some ce =>
        simp only [hc]
        rcases verifyStatus_cases snap.algo se.hashes
            ((hasher ce.path snap.algo).getD ⟨none, none⟩) with h2 | h2
        · exact Or.inl h2
        · exact Or.inr (Or.inl h2)
    · rcases List.mem_map.mp h with ⟨p, _, rfl⟩
      exact Or.inr (Or.inr (Or.inr rfl))

/-- Witness for verify_self_describing at a concrete input. -/
theorem verify_self_describing_witness :
    ((snapFix.files.map SnapshotEntry.rel_path).Nodup) ∧
    ((∀ hasher2 : String → HashAlgo → Option HashResult,
      (∀ p, hasher2 p snapFix.algo = hasherNone p snapFix.algo) →
      run_verify hasher2 snapFix curFix = run_verify hasherNone snapFix curFix) ∧
     (∀ se ∈ snapFix.files, ∀ ce : FileEntry, curFix.lookup se.rel_path = some ce →
      (statusPairs (run_verify hasherNone snapFix curFix)).lookup se.rel_path
        = some (verifyStatus snapFix.algo se.hashes
            ((hasherNone ce.path snapFix.algo).getD ⟨none, none⟩))) ∧
     (∀ se ∈ snapFix.files, curFix.lookup se.rel_path = none →
      (statusPairs (run_verify hasherNone snapFix curFix)).lookup se.rel_path
        = some "MISSING") ∧
     (∀ p ∈ curFix, p.1 ∉ snapFix.files.map SnapshotEntry.rel_path →
      (statusPairs (run_verify hasherNone snapFix curFix)).lookup p.1 = some "EXTRA") ∧
     (∀ r ∈ run_verify hasherNone snapFix curFix,
      r.status = "MATCH" ∨ r.status = "DIFF" ∨ r.status = "MISSING" ∨ r.status = "EXTRA")) :=
  ⟨by decide, verify_self_describing hasherNone snapFix curFix (by decide)⟩

theorem lookup_mem {β : Type} (l : List (String × β)) (k : String) (v : β)
    (h : l.lookup k = some v) : (k, v) ∈ l := by
  induction l with
  | nil => cases h
  | cons p rest ih =>
    obtain ⟨a, b⟩ := p
    by_cases hk : k = a
    · subst hk
      simp [List.lookup] at h
      exact h ▸ List.mem_cons_self _ _
    · have hb : (k == a) = false := beq_false_of_ne hk
      simp only [List.lookup, hb] at h
      exact List.mem_cons_of_mem _ (ih h)

theorem lookup_isSome_of_mem_keys {β : Type} (l : List (String × β)) (k : String)
    (h : k ∈ l.map Prod.fst) : ∃ v, l.lookup k = some v := by
  induction l with
  | nil => cases h
  | cons p rest ih =>
    obtain ⟨a, b⟩ := p
    by_cases hk : k = a
    · subst hk
      exact ⟨b, by simp [List.lookup]⟩
    · have hb : (k == a) = false := beq_false_of_ne hk
      rcases ih (List.mem_of_ne_of_mem hk h) with ⟨v, hv⟩
      exact ⟨v, by simp only [List.lookup, hb]; exact hv⟩

theorem lookup_of_mem_nodup {β : Type} (l : List (String × β)) (k : String) (v : β)
    (hnd : (l.map Prod.fst).Nodup) (h : (k, v) ∈ l) : l.lookup k = some v := by
  induction l with
  | nil => cases h
  | cons p rest ih =>
    rw [List.map_cons] at hnd
    rcases List.mem_cons.mp h with heq | hmem
    · rw [← heq]
      simp [List.lookup]
    · have hne : k ≠ p.1 := by
        intro he
        exact (List.nodup_cons.mp hnd).1 (List.mem_map.mpr ⟨(k, v), hmem, he⟩)
      have hb : (k == p.1) = false := beq_false_of_ne hne
      obtain ⟨a, b⟩ := p
      simp only [List.lookup, hb]
      exact ih (List.nodup_cons.mp hnd).2 hmem

theorem lookup_filter_self {β : Type} (t : List (String × β)) (k : String) :
    (t.filter (fun p => p.1 != k)).lookup k = none := by
  induction t with
  | nil => rfl
  | cons p rest ih =>
    obtain ⟨a, b⟩ := p
    by_cases hak : a = k
    · subst hak
      simp only [List.filter_cons, bne_self_eq_false, Bool.false_eq_true, if_false]
      exact ih
    · have h1 : (a != k) = true := by simp [bne, beq_false_of_ne hak]
      have h2 : (k == a) = false := beq_false_of_ne (Ne.symm hak)
      simp only [List.filter_cons, h1, if_true, List.lookup, h2]
      exact ih

theorem upsert_lookup_self (t : FsTree) (k : String) (f : FsFile) :
    (upsert t k f).lookup k = some f := by
  unfold upsert
  rw [lookup_append_of_none _ _ _ (lookup_filter_self t k)]
  simp [List.lookup]

theorem upsert_lookup_ne (t : FsTree) (k x : String) (f : FsFile) (hx : x ≠ k) :
    (upsert t k f).lookup x = t.lookup x := by
  unfold upsert
  cases ht : t.lookup x with
  | some v =>
    exact lookup_append_of_some _ _ _ _ (by rw [lookup_filter_ne t k x hx]; exact ht)
  | none =>
    rw [lookup_append_of_none _ _ _ (by rw [lookup_filter_ne t k x hx]; exact ht)]
    have hb : (x == k) = false := beq_false_of_ne hx
    simp [List.lookup, hb]

theorem eraseKey_lookup_self (t : FsTree) (k : String) :
    (eraseKey t k).lookup k = none := lookup_filter_self t k

theorem eraseKey_lookup_ne (t : FsTree) (k x : String) (hx : x ≠ k) :
    (eraseKey t k).lookup x = t.lookup x := lookup_filter_ne t k x hx

theorem invOf_keys (t : FsTree) : (invOf t).map Prod.fst = t.map Prod.fst := by
  unfold invOf
  rw [List.map_map]
  rfl

theorem invOf_lookup (t : FsTree) (k : String) :
    (invOf t).lookup k = (t.lookup k).map (entryOf k) := by
  induction t with
  | nil => rfl
  | cons p rest ih =>
    obtain ⟨a, f⟩ := p
    by_cases hk : k = a
    · subst hk
      simp [invOf, List.lookup]
    · have hb : (k == a) = false := beq_false_of_ne hk
      simp only [invOf, List.map_cons, List.lookup, hb]
      exact ih

theorem treeHasher_eq (sha blake : List Nat → String) (t : FsTree) (path : String)
    (algo : HashAlgo) :
    treeHasher sha blake t path algo
      = (t.lookup path).map (fun f => hashResultOf sha blake algo f.bytes) := by
  unfold treeHasher compute_hashes
  dsimp only
  cases t.lookup path <;> rfl

theorem isDiffAlgo_self (algo : HashAlgo) (h : HashResult) : isDiffAlgo algo h h = false := by
  cases algo <;> simp [isDiffAlgo]

theorem keys_filterMap_keyed {β : Type} (g : (String × FileEntry) → Option (String × β))
    (hg : ∀ p a, g p = some a → a.1 = p.1) :
    ∀ (l : List (String × FileEntry)),
      ((l.filterMap g).map Prod.fst).Sublist (l.map Prod.fst) := by
  intro l
  induction l with
  | nil => exact List.Sublist.refl _
  | cons p rest ih =>
    rw [List.filterMap_cons, List.map_cons]
    cases hgp : g p with
    | none => exact ih.cons p.1
    | some a =>
      rw [List.map_cons, hg p a hgp]
      exact ih.cons₂ p.1

theorem update_candidate_some (hashS hashD : String → HashAlgo → Option HashResult)
    (cfg : SyncConfig) (dstInv : List (String × FileEntry)) (p : String × FileEntry)
    (a : String × String) (h : update_candidate hashS hashD cfg dstInv p = some a) :
    a = (p.1, "UPDATE") ∧ ∃ d, dstInv.lookup p.1 = some d := by
  unfold update_candidate at h
  split at h
  · cases h
  · next d heq =>
    refine ⟨?_, ⟨d, heq⟩⟩
    repeat' split at h
    all_goals try (dsimp only at h; split at h)
    all_goals cases h
    all_goals rfl

theorem sync_apply_tree_cons (src : FsTree) (tNew : Nat) (dst : FsTree) (k s : String)
    (rest : List (String × String)) :
    (sync_apply false src tNew dst ((k, s) :: rest)).1
      = if s = "CREATE" ∨ s = "UPDATE" then
          (sync_apply false src tNew
            (match src.lookup k with
             | some f => upsert dst k { bytes := f.bytes, mtime := tNew }
             | none => dst) rest).1
        else if s = "DELETE" then (sync_apply false src tNew (eraseKey dst k) rest).1
        else (sync_apply false src tNew dst rest).1 := by
  by_cases h1 : s = "CREATE" ∨ s = "UPDATE"
  · rw [if_pos h1]
    simp only [sync_apply, Bool.false_eq_true, if_false, if_pos h1]
    split <;> rfl
  · rw [if_neg h1]
    by_cases h2 : s = "DELETE"
    · rw [if_pos h2]
      simp only [sync_apply, Bool.false_eq_true, if_false, if_neg h1, if_pos h2]
    · rw [if_neg h2]
      simp only [sync_apply, Bool.false_eq_true, if_false, if_neg h1, if_neg h2]

theorem sync_apply_tree_of_not_mem (src : FsTree) (tNew : Nat) :
    ∀ (acts : List (String × String)) (dst : FsTree) (k : String),
      k ∉ acts.map Prod.fst →
      ((sync_apply false src tNew dst acts).1).lookup k = dst.lookup k := by
  intro acts
  induction acts with
  | nil =>
    intro dst k _
    rfl
  | cons a rest ih =>
    intro dst k hk
    obtain ⟨ak, as⟩ := a
    rw [List.map_cons] at hk
    have hkak : k ≠ ak := fun h => hk (h ▸ List.mem_cons_self _ _)
    have hkrest : k ∉ rest.map Prod.fst := fun h => hk (List.mem_cons_of_mem _ h)
    rw [sync_apply_tree_cons]
    by_cases h1 : as = "CREATE" ∨ as = "UPDATE"
    · rw [if_pos h1]
      cases hsa : src.lookup ak with
      | none => rw [ih dst k hkrest]
      | some f => rw [ih _ k hkrest, upsert_lookup_ne dst ak k _ hkak]
    · rw [if_neg h1]
      by_cases h2 : as = "DELETE"
      · rw [if_pos h2, ih _ k hkrest, eraseKey_lookup_ne dst ak k hkak]
      · rw [if_neg h2, ih dst k hkrest]

theorem sync_apply_tree_copy (src : FsTree) (tNew : Nat) :
    ∀ (acts : List (String × String)) (dst : FsTree) (k s : String) (f : FsFile),
      (acts.map Prod.fst).Nodup → (k, s) ∈ acts → (s = "CREATE" ∨ s = "UPDATE") →
      src.lookup k = some f →
      ((sync_apply false src tNew dst acts).1).lookup k
        = some { bytes := f.bytes, mtime := tNew } := by
  intro acts
  induction acts with
  | nil =>
    intro dst k s f _ hmem _ _
    cases hmem
  | cons a rest ih =>
    intro dst k s f hnd hmem hcu hsrc
    obtain ⟨ak, as⟩ := a
    rw [List.map_cons] at hnd
    rcases List.mem_cons.mp hmem with heq | hmem'
    · injection heq with hk hs2
      subst hk
      subst hs2
      rw [sync_apply_tree_cons, if_pos hcu, hsrc]
      rw [sync_apply_tree_of_not_mem src tNew rest _ k (List.nodup_cons.mp hnd).1]
      exact upsert_lookup_self dst k _
    · have hkne : k ≠ ak := by
        intro he
        exact (List.nodup_cons.mp hnd).1 (he ▸ List.mem_map.mpr ⟨(k, s), hmem', rfl⟩)
      rw [sync_apply_tree_cons]
      by_cases h1 : as = "CREATE" ∨ as = "UPDATE"
      · rw [if_pos h1]
        exact ih _ k s f (List.nodup_cons.mp hnd).2 hmem' hcu hsrc
      · rw [if_neg h1]
        by_cases h2 : as = "DELETE"
        · rw [if_pos h2]
          exact ih _ k s f (List.nodup_cons.mp hnd).2 hmem' hcu hsrc
        · rw [if_neg h2]
          exact ih dst k s f (List.nodup_cons.mp hnd).2 hmem' hcu hsrc

theorem sync_apply_tree_delete (src : FsTree) (tNew : Nat) :
    ∀ (acts : List (String × String)) (dst : FsTree) (k : String),
      (acts.map Prod.fst).Nodup → (k, "DELETE") ∈ acts →
      ((sync_apply false src tNew dst acts).1).lookup k = none := by
  intro acts
  induction acts with
  | nil =>
    intro dst k _ hmem
    cases hmem
  | cons a rest ih =>
    intro dst k hnd hmem
    obtain ⟨ak, as⟩ := a
    rw [List.map_cons] at hnd
    rcases List.mem_cons.mp hmem with heq | hmem'
    · injection heq with hk hs2
      subst hk
      subst hs2
      rw [sync_apply_tree_cons, if_neg (by decide), if_pos rfl]
      rw [sync_apply_tree_of_not_mem src tNew rest _ k (List.nodup_cons.mp hnd).1]
      exact eraseKey_lookup_self dst k
    · rw [sync_apply_tree_cons]
      by_cases h1 : as = "CREATE" ∨ as = "UPDATE"
      · rw [if_pos h1]
        exact ih _ k (List.nodup_cons.mp hnd).2 hmem'
      · rw [if_neg h1]
        by_cases h2 : as = "DELETE"
        · rw [if_pos h2]
          exact ih _ k (List.nodup_cons.mp hnd).2 hmem'
        · rw [if_neg h2]
          exact ih dst k (List.nodup_cons.mp hnd).2 hmem'

theorem create_mem_plan (hashS hashD : String → HashAlgo → Option HashResult)
    (cfg : SyncConfig) (srcInv dstInv : List (String × FileEntry)) (k : String)
    (e : FileEntry) (hmem : (k, e) ∈ srcInv) (hdst : (dstInv.lookup k).isNone = true) :
    (k, "CREATE") ∈ sync_plan hashS hashD cfg srcInv dstInv := by
  simp only [sync_plan]
  refine List.mem_append_left _ (List.mem_append_left _ ?_)
  exact List.mem_map.mpr ⟨(k, e), List.mem_filter.mpr ⟨hmem, hdst⟩, rfl⟩

theorem delete_mem_plan (hashS hashD : String → HashAlgo → Option HashResult)
    (cfg : SyncConfig) (srcInv dstInv : List (String × FileEntry)) (k : String)
    (e : FileEntry) (hflag : cfg.delete_extraneous = true) (hmem : (k, e) ∈ dstInv)
    (hsrc : (srcInv.lookup k).isNone = true) :
    (k, "DELETE") ∈ sync_plan hashS hashD cfg srcInv dstInv := by
  simp only [sync_plan]
  refine List.mem_append_left _ (List.mem_append_right _ ?_)
  rw [if_pos hflag]
  exact List.mem_map.mpr ⟨(k, e), List.mem_filter.mpr ⟨hmem, hsrc⟩, rfl⟩

theorem update_mem_plan (hashS hashD : String → HashAlgo → Option HashResult)
    (cfg : SyncConfig) (srcInv dstInv : List (String × FileEntry)) (k : String)
    (e : FileEntry) (hmem : (k, e) ∈ srcInv)
    (hcand : update_candidate hashS hashD cfg dstInv (k, e) = some (k, "UPDATE")) :
    (k, "UPDATE") ∈ sync_plan hashS hashD cfg srcInv dstInv := by
  simp only [sync_plan]
  exact List.mem_append_right _ (List.mem_filterMap.mpr ⟨(k, e), hmem, hcand⟩)

theorem plan_mem_inv (hashS hashD : String → HashAlgo → Option HashResult)
    (cfg : SyncConfig) (srcInv dstInv : List (String × FileEntry)) (k s : String)
    (h : (k, s) ∈ sync_plan hashS hashD cfg srcInv dstInv) :
    (s = "CREATE" ∧ ∃ e, (k, e) ∈ srcInv ∧ (dstInv.lookup k).isNone = true) ∨
    (s = "DELETE" ∧ cfg.delete_extraneous = true ∧
      ∃ e, (k, e) ∈ dstInv ∧ (srcInv.lookup k).isNone = true) ∨
    (s = "UPDATE" ∧ ∃ e, (k, e) ∈ srcInv ∧
      update_candidate hashS hashD cfg dstInv (k, e) = some (k, "UPDATE")) := by
  simp only [sync_plan] at h
  rcases List.mem_append.mp h with h1 | h1
  · rcases List.mem_append.mp h1 with h2 | h2
    · left
      rcases List.mem_map.mp h2 with ⟨p, hp, hpe⟩
      rcases List.mem_filter.mp hp with ⟨hpl, hc⟩
      injection hpe with hk hs2
      subst hk
      subst hs2
      exact ⟨rfl, p.2, hpl, hc⟩
    · right; left
      by_cases hflag : cfg.delete_extraneous = true
      · rw [if_pos hflag] at h2
        rcases List.mem_map.mp h2 with ⟨p, hp, hpe⟩
        rcases List.mem_filter.mp hp with ⟨hpl, hc⟩
        injection hpe with hk hs2
        subst hk
        subst hs2
        exact ⟨rfl, hflag, p.2, hpl, hc⟩
      · rw [if_neg hflag] at h2
        cases h2
  · right; right
    rcases List.mem_filterMap.mp h1 with ⟨p, hp, hcand⟩
    have ha := update_candidate_some hashS hashD cfg dstInv p (k, s) hcand
    have hk : k = p.1 := congrArg Prod.fst ha.1
    have hs2 : s = "UPDATE" := congrArg Prod.snd ha.1
    subst hs2
    refine ⟨rfl, p.2, ?_, ?_⟩
    · rw [hk]
      exact hp
    · rw [hk] at hcand ⊢
      exact hcand

theorem keys_of_const_pairs {β : Type} (l : List (String × β)) (s : String) :
    ((l.map (fun p => (p.1, s))).map Prod.fst) = l.map Prod.fst := by
  rw [List.map_map]
  rfl

theorem sync_plan_keys_nodup (hashS hashD : String → HashAlgo → Option HashResult)
    (cfg : SyncConfig) (srcInv dstInv : List (String × FileEntry))
    (hs : (srcInv.map Prod.fst).Nodup) (hd : (dstInv.map Prod.fst).Nodup) :
    ((sync_plan hashS hashD cfg srcInv dstInv).map Prod.fst).Nodup := by
  have hCkeys : (((srcInv.filter (fun p => (dstInv.lookup p.1).isNone)).map
      (fun p => (p.1, "CREATE"))).map Prod.fst).Nodup := by
    rw [keys_of_const_pairs]
    exact ((List.filter_sublist srcInv).map Prod.fst).nodup hs
  have hCmem : ∀ x, x ∈ ((srcInv.filter (fun p => (dstInv.lookup p.1).isNone)).map
      (fun p => (p.1, "CREATE"))).map Prod.fst →
      (∃ v, srcInv.lookup x = some v) ∧ (dstInv.lookup x).isNone = true := by
    intro x hx
    rw [keys_of_const_pairs] at hx
    rcases List.mem_map.mp hx with ⟨p, hp, rfl⟩
    rcases List.mem_filter.mp hp with ⟨hpl, hc⟩
    exact ⟨lookup_isSome_of_mem_keys srcInv p.1 (List.mem_map.mpr ⟨p, hpl, rfl⟩), hc⟩
  have hDmem : ∀ x, x ∈ ((if cfg.delete_extraneous then
      (dstInv.filter (fun p => (srcInv.lookup p.1).isNone)).map (fun p => (p.1, "DELETE"))
      else []).map Prod.fst) →
      (∃ v, dstInv.lookup x = some v) ∧ (srcInv.lookup x).isNone = true := by
    intro x hx
    by_cases hflag : cfg.delete_extraneous = true
    · rw [if_pos hflag, keys_of_const_pairs] at hx
      rcases List.mem_map.mp hx with ⟨p, hp, rfl⟩
      rcases List.mem_filter.mp hp with ⟨hpl, hc⟩
      exact ⟨lookup_isSome_of_mem_keys dstInv p.1 (List.mem_map.mpr ⟨p, hpl, rfl⟩), hc⟩
    · rw [if_neg hflag] at hx
      cases hx
  have hUmem : ∀ x, x ∈ ((srcInv.filterMap
      (update_candidate hashS hashD cfg dstInv)).map Prod.fst) →
      (∃ v, srcInv.lookup x = some v) ∧ (∃ d, dstInv.lookup x = some d) := by
    intro x hx
    rcases List.mem_map.mp hx with ⟨a, ha, rfl⟩
    rcases List.mem_filterMap.mp ha with ⟨p, hp, hcand⟩
    rcases update_candidate_some hashS hashD cfg dstInv p a hcand with ⟨rfl, hdl⟩
    exact ⟨lookup_isSome_of_mem_keys srcInv p.1 (List.mem_map.mpr ⟨p, hp, rfl⟩), hdl⟩
  have hDkeys : (((if cfg.delete_extraneous then
      (dstInv.filter (fun p => (srcInv.lookup p.1).isNone)).map (fun p => (p.1, "DELETE"))
      else []) : List (String × String)).map Prod.fst).Nodup := by
    by_cases hflag : cfg.delete_extraneous = true
    · rw [if_pos hflag, keys_of_const_pairs]
      exact ((List.filter_sublist dstInv).map Prod.fst).nodup hd
    · rw [if_neg hflag]
      exact List.nodup_nil
  have hUkeys : (((srcInv.filterMap
      (update_candidate hashS hashD cfg dstInv)).map Prod.fst)).Nodup := by
    refine List.Nodup.sublist ?_ hs
    exact keys_filterMap_keyed (update_candidate hashS hashD cfg dstInv)
      (fun p a h => congrArg Prod.fst (update_candidate_some hashS hashD cfg dstInv p a h).1)
      srcInv
  simp only [sync_plan]
  rw [List.map_append, List.map_append]
  refine List.Nodup.append (List.Nodup.append hCkeys hDkeys ?_) hUkeys ?_
  · intro x hxC hxD
    rcases hCmem x hxC with ⟨⟨v, hv⟩, _⟩
    rcases hDmem x hxD with ⟨_, hnone⟩
    rw [hv] at hnone
    cases hnone
  · intro x hxCD hxU
    rcases hUmem x hxU with ⟨⟨v, hv⟩, ⟨d, hdl⟩⟩
    rcases List.mem_append.mp hxCD with hxC | hxD
    · rcases hCmem x hxC with ⟨_, hnone⟩
      rw [hdl] at hnone
      cases hnone
    · rcases hDmem x hxD with ⟨_, hnone⟩
      rw [hv] at hnone
      cases hnone

theorem update_candidate_congr (hashS hashD hashD2 : String → HashAlgo → Option HashResult)
    (cfg : SyncConfig) (dstInv dstInv2 : List (String × FileEntry)) (p : String × FileEntry)
    (hl : dstInv2.lookup p.1 = dstInv.lookup p.1)
    (hh : ∀ d, dstInv.lookup p.1 = some d → hashD2 d.path cfg.algo = hashD d.path cfg.algo) :
    update_candidate hashS hashD2 cfg dstInv2 p = update_candidate hashS hashD cfg dstInv p := by
  unfold update_candidate
  rw [hl]
  cases hd : dstInv.lookup p.1 with
  | none => rfl
  | some d =>
    dsimp only
    rw [hh d hd]

theorem sync_dst_after_src_key (sha blake : List Nat → String) (cfg : SyncConfig)
    (src dst : FsTree) (tNew : Nat)
    (hs : (src.map Prod.fst).Nodup) (hd : (dst.map Prod.fst).Nodup)
    (k : String) (f : FsFile) (hsrc : src.lookup k = some f) :
    ((sync_apply false src tNew dst
        (sync_plan (treeHasher sha blake src) (treeHasher sha blake dst) cfg
          (invOf src) (invOf dst))).1).lookup k
      = some { bytes := f.bytes, mtime := tNew } ∨
    (((sync_apply false src tNew dst
        (sync_plan (treeHasher sha blake src) (treeHasher sha blake dst) cfg
          (invOf src) (invOf dst))).1).lookup k = dst.lookup k ∧
     update_candidate (treeHasher sha blake src) (treeHasher sha blake dst) cfg
       (invOf dst) (k, entryOf k f) = none ∧
     ∃ g, dst.lookup k = some g) := by
  have hsrcKeys : ((invOf src).map Prod.fst).Nodup := by
    rw [invOf_keys]
    exact hs
  have hdstKeys : ((invOf dst).map Prod.fst).Nodup := by
    rw [invOf_keys]
    exact hd
  have hpk := sync_plan_keys_nodup (treeHasher sha blake src) (treeHasher sha blake dst)
    cfg (invOf src) (invOf dst) hsrcKeys hdstKeys
  have hmemsrc : (k, entryOf k f) ∈ invOf src :=
    List.mem_map.mpr ⟨(k, f), lookup_mem src k f hsrc, rfl⟩
  cases hdk : dst.lookup k with
  | none =>
    left
    have hcre : (k, "CREATE") ∈ sync_plan (treeHasher sha blake src)
        (treeHasher sha blake dst) cfg (invOf src) (invOf dst) :=
      create_mem_plan _ _ _ _ _ k (entryOf k f) hmemsrc (by rw [invOf_lookup, hdk]; rfl)
    exact sync_apply_tree_copy src tNew _ dst k "CREATE" f hpk hcre (Or.inl rfl) hsrc
  | some g =>
    cases hcand : update_candidate (treeHasher sha blake src) (treeHasher sha blake dst)
        cfg (invOf dst) (k, entryOf k f) with
    | some a =>
      left
      have ha1 : a = (k, "UPDATE") :=
        (update_candidate_some _ _ _ _ _ _ hcand).1
      subst ha1
      exact sync_apply_tree_copy src tNew _ dst k "UPDATE" f hpk
        (update_mem_plan _ _ _ _ _ k (entryOf k f) hmemsrc hcand) (Or.inr rfl) hsrc
    | none =>
      right
      have hknotin : k ∉ (sync_plan (treeHasher sha blake src) (treeHasher sha blake dst)
          cfg (invOf src) (invOf dst)).map Prod.fst := by
        intro hmem
        rcases List.mem_map.mp hmem with ⟨⟨k2, s2⟩, hact, hk2⟩
        dsimp at hk2
        rw [hk2] at hact
        rcases plan_mem_inv _ _ _ _ _ _ _ hact with
          ⟨_, e, _, hnone⟩ | ⟨_, _, e, _, hnone⟩ | ⟨_, e, hesrc, hecand⟩
        · rw [invOf_lookup, hdk] at hnone
          simp at hnone
        · rw [invOf_lookup, hsrc] at hnone
          simp at hnone
        · have hle : (invOf src).lookup k = some (entryOf k f) := by
            rw [invOf_lookup, hsrc]
            rfl
          have hue := lookup_of_mem_nodup (invOf src) k e hsrcKeys hesrc
          rw [hle] at hue
          injection hue with he
          rw [← he] at hecand
          rw [hcand] at hecand
          cases hecand
      have h0 := sync_apply_tree_of_not_mem src tNew _ dst k hknotin
      rw [hdk] at h0
      exact ⟨h0, rfl, g, rfl⟩

theorem sync_plan_empty_after (sha blake : List Nat → String) (cfg : SyncConfig)
    (src dst : FsTree) (tNew : Nat)
    (hs : (src.map Prod.fst).Nodup) (hd : (dst.map Prod.fst).Nodup) :
    sync_plan (treeHasher sha blake src)
      (treeHasher sha blake ((sync_apply false src tNew dst
        (sync_plan (treeHasher sha blake src) (treeHasher sha blake dst) cfg
          (invOf src) (invOf dst))).1)) cfg
      (invOf src)
      (invOf ((sync_apply false src tNew dst
        (sync_plan (treeHasher sha blake src) (treeHasher sha blake dst) cfg
          (invOf src) (invOf dst))).1)) = [] := by
  have K1 : ∀ k f, src.lookup k = some f →
      ((sync_apply false src tNew dst
        (sync_plan (treeHasher sha blake src) (treeHasher sha blake dst) cfg
          (invOf src) (invOf dst))).1).lookup k
        = some { bytes := f.bytes, mtime := tNew } ∨
      (((sync_apply false src tNew dst
        (sync_plan (treeHasher sha blake src) (treeHasher sha blake dst) cfg
          (invOf src) (invOf dst))).1).lookup k = dst.lookup k ∧
       update_candidate (treeHasher sha blake src) (treeHasher sha blake dst) cfg
         (invOf dst) (k, entryOf k f) = none ∧
       ∃ g, dst.lookup k = some g) :=
    fun k f hx => sync_dst_after_src_key sha blake cfg src dst tNew hs hd k f hx
  have hpk := sync_plan_keys_nodup (treeHasher sha blake src) (treeHasher sha blake dst)
    cfg (invOf src) (invOf dst)
    (by rw [invOf_keys]; exact hs) (by rw [invOf_keys]; exact hd)
  generalize hdst' : (sync_apply false src tNew dst
      (sync_plan (treeHasher sha blake src) (treeHasher sha blake dst) cfg
        (invOf src) (invOf dst))).1 = dst' at K1 ⊢
  simp only [sync_plan]
  rw [List.append_eq_nil, List.append_eq_nil]
  refine ⟨⟨?_, ?_⟩, ?_⟩
  · rw [List.map_eq_nil_iff, List.filter_eq_nil_iff]
    intro p hp
    rcases List.mem_map.mp hp with ⟨⟨k, f⟩, hkf, rfl⟩
    have hsrck : src.lookup k = some f := lookup_of_mem_nodup src k f hs hkf
    rcases K1 k f hsrck with hcopy | ⟨huntouched, _, g, hg⟩
    · rw [invOf_lookup, hcopy]
      simp
    · rw [invOf_lookup, huntouched, hg]
      simp
  · by_cases hflag : cfg.delete_extraneous = true
    · rw [if_pos hflag, List.map_eq_nil_iff, List.filter_eq_nil_iff]
      intro q hq
      rcases List.mem_map.mp hq with ⟨⟨k, g'⟩, hkg, rfl⟩
      intro hNone
      rw [invOf_lookup] at hNone
      cases hsk : src.lookup k with
      | some f =>
        rw [hsk] at hNone
        simp at hNone
      | none =>
        have hdstk' : ∃ v, dst'.lookup k = some v :=
          lookup_isSome_of_mem_keys dst' k (List.mem_map.mpr ⟨(k, g'), hkg, rfl⟩)
        by_cases hkp : k ∈ (sync_plan (treeHasher sha blake src) (treeHasher sha blake dst)
            cfg (invOf src) (invOf dst)).map Prod.fst
        · rcases List.mem_map.mp hkp with ⟨⟨k2, s2⟩, hact, hk2⟩
          dsimp at hk2
          rw [hk2] at hact
          rcases plan_mem_inv _ _ _ _ _ _ _ hact with
            ⟨_, e, hesrc, _⟩ | ⟨hsD, _, _, _, _⟩ | ⟨_, e, hesrc, _⟩
          · rcases lookup_isSome_of_mem_keys (invOf src) k
              (List.mem_map.mpr ⟨(k, e), hesrc, rfl⟩) with ⟨v, hv⟩
            rw [invOf_lookup, hsk] at hv
            cases hv
          · subst hsD
            have hdel := sync_apply_tree_delete src tNew _ dst k hpk hact
            rw [hdst'] at hdel
            rcases hdstk' with ⟨v, hv⟩
            rw [hdel] at hv
            cases hv
          · rcases lookup_isSome_of_mem_keys (invOf src) k
              (List.mem_map.mpr ⟨(k, e), hesrc, rfl⟩) with ⟨v, hv⟩
            rw [invOf_lookup, hsk] at hv
            cases hv
        · have heq := sync_apply_tree_of_not_mem src tNew _ dst k hkp
          rw [hdst'] at heq
          rcases hdstk' with ⟨v, hv⟩
          rw [heq] at hv
          have hdel : (k, "DELETE") ∈ sync_plan (treeHasher sha blake src)
              (treeHasher sha blake dst) cfg (invOf src) (invOf dst) :=
            delete_mem_plan _ _ _ _ _ k (entryOf k v) hflag
              (List.mem_map.mpr ⟨(k, v), lookup_mem dst k v hv, rfl⟩)
              (by rw [invOf_lookup, hsk]; rfl)
          exact hkp (List.mem_map.mpr ⟨(k, "DELETE"), hdel, rfl⟩)
    · rw [if_neg hflag]
  · rw [List.filterMap_eq_nil_iff]
    intro p hp
    rcases List.mem_map.mp hp with ⟨⟨k, f⟩, hkf, rfl⟩
    have hsrck : src.lookup k = some f := lookup_of_mem_nodup src k f hs hkf
    rcases K1 k f hsrck with hcopy | ⟨huntouched, hcandnone, g, hg⟩
    · simp only [update_candidate, invOf_lookup, hcopy, Option.map_some']
      by_cases hsc : (entryOf k f).size = (entryOf k { bytes := f.bytes, mtime := tNew }).size ∧
          cfg.algo = HashAlgo.Both ∧
          (entryOf k f).modified = (entryOf k { bytes := f.bytes, mtime := tNew }).modified
      · rw [if_pos hsc]
      · rw [if_neg hsc]
        have h1 : treeHasher sha blake src (entryOf k f).path cfg.algo
            = some (hashResultOf sha blake cfg.algo f.bytes) := by
          rw [treeHasher_eq]
          show (src.lookup k).map _ = _
          rw [hsrck]
          rfl
        have h2 : treeHasher sha blake dst'
            (entryOf k { bytes := f.bytes, mtime := tNew }).path cfg.algo
            = some (hashResultOf sha blake cfg.algo f.bytes) := by
          rw [treeHasher_eq]
          show (dst'.lookup k).map _ = _
          rw [hcopy]
          rfl
        rw [h1, h2]
        simp [isDiffAlgo_self]
    · have hcongr : update_candidate (treeHasher sha blake src) (treeHasher sha blake dst')
          cfg (invOf dst') (k, entryOf k f)
          = update_candidate (treeHasher sha blake src) (treeHasher sha blake dst)
            cfg (invOf dst) (k, entryOf k f) := by
        apply update_candidate_congr
        · show (invOf dst').lookup k = (invOf dst).lookup k
          rw [invOf_lookup, invOf_lookup, huntouched]
        · intro d hdl
          show treeHasher sha blake dst' d.path cfg.algo
            = treeHasher sha blake dst d.path cfg.algo
          rw [invOf_lookup, hg] at hdl
          have hdpath : d.path = k := by
            injection hdl with hde
            rw [← hde]
            rfl
          rw [hdpath, treeHasher_eq, treeHasher_eq, huntouched]
      rw [hcongr]
      exact hcandnone

/-- C9: sync idempotence. Running run_sync in non-dry-run mode and then
running it again with the same configuration, on quiescent trees with no
external change between the runs, yields an empty action plan on the second
run: zero CREATE, UPDATE and DELETE actions, and all three summary counters
are zero. -/
theorem sync_idempotent (sha blake : List Nat → String) (cfg : SyncConfig)
    (src dst : FsTree) (tNew tNew2 : Nat) (hdry : cfg.dry_run = false)
    (hs : (src.map Prod.fst).Nodup) (hd : (dst.map Prod.fst).Nodup) :
    (run_sync sha blake cfg src ((run_sync sha blake cfg src dst tNew).2.1) tNew2).1 = [] ∧
    (run_sync sha blake cfg src ((run_sync sha blake cfg src dst tNew).2.1) tNew2).2.2
      = (0, 0, 0) := by
  have hplan : (run_sync sha blake cfg src ((run_sync sha blake cfg src dst tNew).2.1) tNew2).1
      = [] := by
    show sync_plan _ _ _ _ _ = []
    have hfirst : (run_sync sha blake cfg src dst tNew).2.1
        = (sync_apply false src tNew dst
            (sync_plan (treeHasher sha blake src) (treeHasher sha blake dst) cfg
              (invOf src) (invOf dst))).1 := by
      show (sync_apply cfg.dry_run src tNew dst _).1 = _
      rw [hdry]
    rw [hfirst]
    exact sync_plan_empty_after sha blake cfg src dst tNew hs hd
  refine ⟨hplan, ?_⟩
  show (sync_apply cfg.dry_run src tNew2 _
      ((run_sync sha blake cfg src ((run_sync sha blake cfg src dst tNew).2.1) tNew2).1)).2
    = (0, 0, 0)
  rw [hplan]
  cases hdr : cfg.dry_run <;> rfl

/-- Witness for sync_idempotent at a concrete input. -/
theorem sync_idempotent_witness :
    ((⟨false, true, false, HashAlgo.Both⟩ : SyncConfig).dry_run = false ∧
     (([("a", ⟨[1], 10⟩), ("b", ⟨[2, 3], 11⟩)] : FsTree).map Prod.fst).Nodup ∧
     (([("a", ⟨[1], 10⟩), ("c", ⟨[9], 12⟩)] : FsTree).map Prod.fst).Nodup) ∧
    ((run_sync shaLen blakeSum ⟨false, true, false, HashAlgo.Both⟩
        [("a", ⟨[1], 10⟩), ("b", ⟨[2, 3], 11⟩)]
        ((run_sync shaLen blakeSum ⟨false, true, false, HashAlgo.Both⟩
          [("a", ⟨[1], 10⟩), ("b", ⟨[2, 3], 11⟩)]
          [("a", ⟨[1], 10⟩), ("c", ⟨[9], 12⟩)] 99).2.1) 100).1 = [] ∧
     (run_sync shaLen blakeSum ⟨false, true, false, HashAlgo.Both⟩
        [("a", ⟨[1], 10⟩), ("b", ⟨[2, 3], 11⟩)]
        ((run_sync shaLen blakeSum ⟨false, true, false, HashAlgo.Both⟩
          [("a", ⟨[1], 10⟩), ("b", ⟨[2, 3], 11⟩)]
          [("a", ⟨[1], 10⟩), ("c", ⟨[9], 12⟩)] 99).2.1) 100).2.2 = (0, 0, 0)) :=
  ⟨⟨rfl, by decide, by decide⟩,
   sync_idempotent shaLen blakeSum ⟨false, true, false, HashAlgo.Both⟩
     [("a", ⟨[1], 10⟩), ("b", ⟨[2, 3], 11⟩)]
     [("a", ⟨[1], 10⟩), ("c", ⟨[9], 12⟩)] 99 100 rfl (by decide) (by decide)⟩

end C2F
